import Mathlib

/-!
Verification development for the rccldev-tools scripts
(`scripts/common.py`, `scripts/perfmetricsRun.py`).

The Python functions are shallowly embedded as executable Lean
definitions.  External effects (filesystem, subprocesses, git) are
modelled by explicit environment records whose fields describe the
observable outcome of each external call; Python exceptions are
modelled with `Except PyErr`.
-/

/-- Kinds of Python exceptions that the modelled code can raise. -/
inductive PyErr where
  | valueError
  | runtimeError
  | fileNotFoundError
  | calledProcessError
  | overflowError
  | nameError
  | indexError
  | keyError
deriving DecidableEq

/-- Model of the Python whitespace class used by `str.split()`, `str.strip()`
and the regex class `\s` (over the ASCII inputs relevant here). -/
def isWsC (c : Char) : Bool := c.isWhitespace

/-- ASCII decimal digit: the exact repertoire of the regex class `\d`
as used by the two patterns. -/
def isDigC (c : Char) : Bool := c.isDigit

/-- The superscript and subscript digit code points (`¹ ² ³` at
U+00B9/U+00B2/U+00B3, `⁰` and `⁴`–`⁹` at U+2070 and U+2074–U+2079, and
`₀`–`₉` at U+2080–U+2089): characters with the Unicode digit property
that are not decimal digits, so Python `str.isdigit()` accepts them
while `int()`/`np.int64` reject them.  Together with the ASCII decimal
digits they model `str.isdigit()` over the character repertoire treated
here; the non-ASCII decimal-digit blocks (category Nd, which `int()`
also accepts) do not occur in benchmark output and are out of scope. -/
def isSupDigC (c : Char) : Bool :=
  c.toNat = 0xB2 || c.toNat = 0xB3 || c.toNat = 0xB9 ||
  c.toNat = 0x2070 || (0x2074 ≤ c.toNat && c.toNat ≤ 0x2079) ||
  (0x2080 ≤ c.toNat && c.toNat ≤ 0x2089)

/-- Accumulator form of Python `str.split()`: `acc` holds the reversed
characters of the field currently being read. -/
def pySplitAux : List Char → List Char → List (List Char)
  | [], acc => if acc.isEmpty then [] else [acc.reverse]
  | c :: cs, acc =>
    if isWsC c then
      if acc.isEmpty then pySplitAux cs [] else acc.reverse :: pySplitAux cs []
    else pySplitAux cs (c :: acc)

/-- Model of Python `str.split()` (no separator argument): split on runs of
whitespace, discarding empty fields. -/
def pySplit (l : List Char) : List (List Char) := pySplitAux l []

/-- Accumulator form of the line splitter. -/
def linesAux : List Char → List Char → List (List Char)
  | [], acc => [acc.reverse]
  | c :: cs, acc =>
    if c = '\n' then acc.reverse :: linesAux cs [] else linesAux cs (c :: acc)

/-- Model of the line iteration of `io.StringIO(s)`: the text is processed
line by line.  We split on the newline character; the terminating newline
that Python keeps on each line affects neither `startswith('##')`, nor the
two regexes (which never constrain the text after their last group), nor
`str.split()`, so it is dropped here.  (The final empty line produced when
the text ends in a newline matches nothing and is skipped, which agrees
with Python yielding no such line.) -/
def linesOf (l : List Char) : List (List Char) := linesAux l []

/-- Consume the regex prefix `\s*`. -/
def dropWs (l : List Char) : List Char := l.dropWhile isWsC

/-- Match the regex atom `\s+` (one mandatory whitespace character, then
greedily all following whitespace). -/
def mWs1 : List Char → Option (List Char)
  | [] => none
  | c :: cs => if isWsC c then some (dropWs cs) else none

/-- Match the regex atom `\d+` (greedy). -/
def mDigits1 (l : List Char) : Option (List Char) :=
  if (l.takeWhile isDigC).isEmpty then none else some (l.dropWhile isDigC)

/-- Match the regex group `(-?\d+)`. -/
def mSInt : List Char → Option (List Char)
  | '-' :: cs => mDigits1 cs
  | l => mDigits1 l

/-- Match the regex group `(-?\d+(?:\.\d+)?)`.  The optional fraction is
taken when a dot followed by at least one digit is present; taking it
greedily is equivalent to the backtracking semantics because every
occurrence of this group in the two patterns is followed by `\s+`, which
can match neither a dot nor a digit. -/
def mFloat (l : List Char) : Option (List Char) :=
  match mSInt l with
  | none => none
  | some r =>
    match r with
    | '.' :: r2 =>
      match mDigits1 r2 with
      | some r3 => some r3
      | none => some r
    | _ => some r

/-- Match the regex group `(\S+)` (greedy). -/
def mNonWs1 (l : List Char) : Option (List Char) :=
  if (l.takeWhile (fun d => !isWsC d)).isEmpty then none
  else some (l.dropWhile (fun d => !isWsC d))

/-- Match the literal alternative `N/A` as a prefix. -/
def mNAlit : List Char → Option (List Char)
  | 'N' :: '/' :: 'A' :: r => some r
  | _ => none

/-- Match the final regex group `((-?\d+)|N/A)`. -/
def mLast (l : List Char) : Option (List Char) :=
  match mSInt l with
  | some r => some r
  | none => mNAlit l

/-- The interior group shapes occurring in the two patterns. -/
inductive GSpec where
  | sint
  | nsp
  | flt
deriving DecidableEq

/-- Interpret one interior group. -/
def mSpec : GSpec → List Char → Option (List Char)
  | .sint => mSInt
  | .nsp => mNonWs1
  | .flt => mFloat

/-- Run a sequence of interior groups, each followed by the separator
`\s+`, exactly as they appear in the two patterns. -/
def chainFrom : List GSpec → List Char → Option (List Char)
  | [], l => some l
  | s :: ss, l =>
    match mSpec s l with
    | none => none
    | some r =>
      match mWs1 r with
      | none => none
      | some r' => chainFrom ss r'

/-- Interior groups of `regexstr1` (Layout A, with a reduce-op column):
`\s*(-?\d+)\s+(-?\d+)\s+(\S+)\s+(\S+)\s+(-?\d+)\s+` followed by three
float groups, `(-?\d+)`, three float groups, and `((-?\d+)|N/A)`. -/
def specs1 : List GSpec :=
  [.sint, .sint, .nsp, .nsp, .sint, .flt, .flt, .flt, .sint, .flt, .flt, .flt]

/-- Interior groups of `regexstr2` (Layout B, no reduce-op column). -/
def specs2 : List GSpec :=
  [.sint, .sint, .nsp, .sint, .flt, .flt, .flt, .sint, .flt, .flt, .flt]

/-- Model of `re.compile(regexstr).match(line)`: leading `\s*`, then the
interior groups with mandatory whitespace separators, then the final
`((-?\d+)|N/A)` group; `match` anchors at the start of the line only. -/
def matchPat (specs : List GSpec) (l : List Char) : Bool :=
  match chainFrom specs (dropWs l) with
  | none => false
  | some r => (mLast r).isSome

/-- `pattern1.match(line)` from `parse_rccl_tests_output`. -/
def pattern1Match (line : String) : Bool := matchPat specs1 line.data

/-- `pattern2.match(line)` from `parse_rccl_tests_output`. -/
def pattern2Match (line : String) : Bool := matchPat specs2 line.data

/-- Nonempty all-ASCII-decimal-digit character list: the digit strings
matched by `\d+`, and exactly the unsigned strings `int()` accepts. -/
def asciiDigits (t : List Char) : Bool := !t.isEmpty && t.all isDigC

/-- Model of Python `str.isdigit()`: nonempty and every character has
the Unicode digit property — an ASCII decimal digit or a
superscript/subscript digit, the latter accepted by `isdigit` although
they are not decimal. -/
def pyIsdigit (t : List Char) : Bool :=
  !t.isEmpty && t.all (fun c => isDigC c || isSupDigC c)

/-- An optionally-minus-signed ASCII digit string: the full-token shape
forced by an interior `(-?\d+)` group, and exactly the tokens on which
`int()`/`np.int64` do not raise `ValueError`. -/
def pySignedDigits (t : List Char) : Bool :=
  asciiDigits t ||
    (match t with
     | '-' :: r => asciiDigits r
     | _ => false)

/-- String-level form of `pySignedDigits`. -/
def pySignedDigitsS (t : String) : Bool := pySignedDigits t.data

/-- The guard `tok.isdigit() or (tok[1:].isdigit() if tok.startswith('-')
else False)` used for the two error-count columns, with `isdigit` the
Unicode digit test (`str.isdigit`, not the decimal class). -/
def wrongGuard (t : List Char) : Bool :=
  pyIsdigit t ||
    (match t with
     | '-' :: r => pyIsdigit r
     | _ => false)

/-- Numeric value of a digit list. -/
def digitsVal (t : List Char) : Nat :=
  t.foldl (fun a c => a * 10 + (c.toNat - '0'.toNat)) 0

/-- Parse with Python `int()` semantics: an optional minus sign followed
by decimal digits; any other string — including one that passes
`str.isdigit` via non-decimal digit characters such as `²` — is
rejected. -/
def parseSignedDigits (t : List Char) : Option Int :=
  match t with
  | '-' :: r => if asciiDigits r then some (-(digitsVal r : Int)) else none
  | _ => if asciiDigits t then some (digitsVal t : Int) else none

/-- Model of `np.int64(token)`: convert the decimal string with Python
`int()` semantics, then narrow to the signed 64-bit range; numpy raises
`OverflowError` when the value does not fit in an `int64`, and the
conversion raises `ValueError` on a non-numeric string. -/
def npInt64 (t : String) : Except PyErr Int :=
  match parseSignedDigits t.data with
  | none => .error .valueError
  | some v =>
    if v < -(2 ^ 63) ∨ 2 ^ 63 ≤ v then .error .overflowError else .ok v

/-- Strip one leading minus sign. -/
def stripNeg (l : List Char) : List Char :=
  match l with
  | c :: cs => if c = '-' then cs else c :: cs
  | [] => []

/-- A nonempty all-digit fraction after a leading dot. -/
def fracOk (l : List Char) : Bool :=
  match l with
  | c :: ds2 => c = '.' && (!ds2.isEmpty && ds2.all isDigC)
  | [] => false

/-- Model of Python `float(token)` on the token shapes accepted by the two
patterns (`-?\d+` optionally followed by `.\d+`).  The value is kept as the
exact rational denoted by the decimal literal; IEEE-754 rounding is not
modelled, and no claim depends on it. -/
def pyFloat (t : String) : Except PyErr ℚ :=
  if negated t.data then
    match parseDecimalQ (stripNeg t.data) with
    | some q => .ok (-q)
    | none => .error .valueError
  else
    match parseDecimalQ t.data with
    | some q => .ok q
    | none => .error .valueError
where
  /-- Does the token start with a minus sign? -/
  negated (l : List Char) : Bool :=
    match l with
    | c :: _ => c = '-'
    | [] => false
  /-- Unsigned decimal literal `\d+(\.\d+)?` as a rational
  (`d1.d2` denotes `(d1 * 10 ^ len(d2) + d2) / 10 ^ len(d2)`); the
  fraction digits are `rest.drop 1`, the digits after the dot. -/
  parseDecimalQ (l : List Char) : Option ℚ :=
    let ds1 := l.takeWhile isDigC
    let rest := l.dropWhile isDigC
    if ds1.isEmpty then none
    else if rest.isEmpty then some (mkRat (digitsVal ds1) 1)
    else if fracOk rest then
      some (mkRat
        (digitsVal ds1 * 10 ^ (rest.drop 1).length + digitsVal (rest.drop 1))
        (10 ^ (rest.drop 1).length))
    else none

/-- One parsed data row (the `entry` dictionary of
`parse_rccl_tests_output`); dictionary keys become fields. -/
structure Entry where
  size : Int
  elements : Int
  type : String
  redop : String
  root : Int
  op_time : ℚ
  op_algbw : ℚ
  op_busbw : ℚ
  op_wrong : Int
  ip_time : ℚ
  ip_algbw : ℚ
  ip_busbw : ℚ
  ip_wrong : Int
deriving DecidableEq

/-- Subscript `columns[k]`; Python raises `IndexError` out of range. -/
def getCol (cols : List String) (k : Nat) : Except PyErr String :=
  match cols[k]? with
  | some t => .ok t
  | none => .error .indexError

/-- String-level `str.split()`. -/
def pySplitStr (line : String) : List String :=
  (pySplit line.data).map (fun t => String.mk t)

/-- The guarded error-count conversion
`np.int64(tok) if tok.isdigit() or (tok[1:].isdigit() if
tok.startswith('-') else False) else 0` used for the `op_wrong` and
`ip_wrong` columns; the guard is `str.isdigit`-based, so it admits
non-decimal digit tokens on which `np.int64` then raises. -/
def wrongVal (t : String) : Except PyErr Int :=
  if wrongGuard t.data then npInt64 t else pure 0

/-- The `entry = { ... }` dictionary construction of
`parse_rccl_tests_output`, with `columns` already split and
`i = 1 if pattern1.match(line) else 0`.  Values are evaluated in the
order the dictionary writes them; the first exception propagates. -/
def mkEntry (cols : List String) (i : Nat) : Except PyErr Entry := do
  let t0 ← getCol cols 0
  let size ← npInt64 t0
  let t1 ← getCol cols 1
  let elements ← npInt64 t1
  let ty ← getCol cols 2
  let redop ← if i = 1 then getCol cols (2 + i) else pure "none"
  let t3 ← getCol cols (3 + i)
  let root ← npInt64 t3
  let t4 ← getCol cols (4 + i)
  let opTime ← pyFloat t4
  let t5 ← getCol cols (5 + i)
  let opAlgbw ← pyFloat t5
  let t6 ← getCol cols (6 + i)
  let opBusbw ← pyFloat t6
  let t7 ← getCol cols (7 + i)
  let opWrong ← wrongVal t7
  let t8 ← getCol cols (8 + i)
  let ipTime ← pyFloat t8
  let t9 ← getCol cols (9 + i)
  let ipAlgbw ← pyFloat t9
  let t10 ← getCol cols (10 + i)
  let ipBusbw ← pyFloat t10
  let t11 ← getCol cols (11 + i)
  let ipWrong ← wrongVal t11
  return {
    size := size, elements := elements, type := ty, redop := redop,
    root := root, op_time := opTime, op_algbw := opAlgbw,
    op_busbw := opBusbw, op_wrong := opWrong, ip_time := ipTime,
    ip_algbw := ipAlgbw, ip_busbw := ipBusbw, ip_wrong := ipWrong }

/-- `line.startswith('##')`. -/
def startsHashHash (line : String) : Bool :=
  match line.data with
  | '#' :: '#' :: _ => true
  | _ => false

/-- One iteration of the `for line in io.StringIO(...)` loop of
`parse_rccl_tests_output`.  The state carries the value last assigned to
the local variable `entry` (the loop-level `data.append(entry)` appends
that stale value when the `len(columns) >= 12` branch is not taken, and
raises `NameError` when `entry` was never assigned) together with the
accumulated `data` list. -/
def lineStep (st : Option Entry × List Entry) (line : String) :
    Except PyErr (Option Entry × List Entry) :=
  if startsHashHash line || !(pattern1Match line || pattern2Match line) then
    .ok st
  else
    let cols := pySplitStr line
    if 12 ≤ cols.length then
      let i : Nat := if pattern1Match line then 1 else 0
      match mkEntry cols i with
      | .error e => .error e
      | .ok e => .ok (some e, st.2 ++ [e])
    else
      match st.1 with
      | none => .error .nameError
      | some e => .ok (st.1, st.2 ++ [e])

/-- Run `lineStep` over all lines, returning the final `data` list. -/
def parseLines (st : Option Entry × List Entry) :
    List String → Except PyErr (List Entry)
  | [] => .ok st.2
  | l :: ls =>
    match lineStep st l with
    | .error e => .error e
    | .ok st' => parseLines st' ls

/-- `parse_rccl_tests_output(rccl_tests_log_str)` from
`scripts/common.py`. -/
def parse_rccl_tests_output (s : String) : Except PyErr (List Entry) :=
  parseLines (none, []) ((linesOf s.data).map (fun t => String.mk t))

/-- Model of `os.path.join(a, b)` for the relative second components used
in these scripts. -/
def pathJoin (a b : String) : String := a ++ "/" ++ b

/-- A filesystem snapshot: an association list from path to text content.
`setFile` prepends, so a later write to the same path shadows an earlier
one (overwrite semantics); `List.lookup` reads the newest entry. -/
def setFile (fs : List (String × String)) (p v : String) :
    List (String × String) := (p, v) :: fs

/-- `write_to_log(message, file_path)` from `scripts/perfmetricsRun.py`:
opens the file in mode `'w'` (truncate) and writes `message + '\n'`.
Every exception is caught and printed, leaving the filesystem unchanged;
`ioOk` says whether the write itself succeeded. -/
def write_to_log (fs : List (String × String)) (message filePath : String)
    (ioOk : Bool) : List (String × String) :=
  if ioOk then setFile fs filePath (message ++ "\n") else fs

/-- Observable outcomes of the external calls made by `build_rccl`. -/
structure BuildEnv where
  /-- `Path(rccl_dir).resolve().exists()` (line 103). -/
  dirExists : Bool
  /-- the `git checkout commit_hash` subprocess exits zero (line 107). -/
  checkoutOk : Bool
  /-- `(rccl_path / "install.sh").exists()` (line 110). -/
  installShExists : Bool
  /-- the `bash install.sh ...` subprocess exits zero (line 116). -/
  buildExitOk : Bool
  /-- combined stdout+stderr captured from the build subprocess. -/
  buildOutput : String
deriving DecidableEq

/-- `build_rccl(rccl_dir, commit_hash, jobs)` from `scripts/common.py`.
Returns the artifact path together with the build output printed by the
`except` handler when the build subprocess exited non-zero (`None` when
the build succeeded).  A missing directory or missing `install.sh` raises
`FileNotFoundError`; a failing `git checkout` raises
`subprocess.CalledProcessError` (its `check=True` is not caught).  The
failing build command is caught: `print(e.output)` reports it and the
function still returns the constant path
`<rccl_dir>/build/debug/librccl.so.1.0`. -/
def build_rccl (env : BuildEnv) (rcclDir : String) (commitHash : Option String) :
    Except PyErr (String × Option String) :=
  if !env.dirExists then .error .fileNotFoundError
  else if commitHash.isSome && !env.checkoutOk then .error .calledProcessError
  else if !env.installShExists then .error .fileNotFoundError
  else
    let artifact := pathJoin (pathJoin (pathJoin rcclDir "build") "debug")
      "librccl.so.1.0"
    if env.buildExitOk then .ok (artifact, none)
    else .ok (artifact, some env.buildOutput)

/-- Observable outcomes of the external calls made by `run_rccl_test`.
The command-line assembly (defaults merged with `rt_args_dict`) has no
observable effect beyond the benchmark process itself and is not
modelled separately. -/
structure RunEnv where
  /-- `os.environ['PATH']` is present (line 208; `KeyError` otherwise). -/
  pathVarSet : Bool
  /-- the benchmark binary exists, so `subprocess.run` can spawn it
  (`FileNotFoundError` otherwise). -/
  binExists : Bool
  /-- the benchmark process exits zero. -/
  exitOk : Bool
  /-- combined stdout+stderr of the benchmark process (the call uses
  `stdout=subprocess.PIPE, stderr=subprocess.STDOUT`, so `result.stdout`
  and `e.output` are both this combined text). -/
  output : String
deriving DecidableEq

/-- `run_rccl_test(...)` from `scripts/common.py`: on exit zero it returns
`str(result.stdout)`; on a non-zero exit the `except
subprocess.CalledProcessError` handler returns `str(e.output)` — the same
captured combined text either way. -/
def run_rccl_test (env : RunEnv) : Except PyErr String :=
  if !env.pathVarSet then .error .keyError
  else if !env.binExists then .error .fileNotFoundError
  else if env.exitOk then .ok env.output
  else .ok env.output

/-- Model of Python `str.strip()`: drop whitespace from both ends. -/
def pyStrip (l : List Char) : List Char :=
  ((l.dropWhile isWsC).reverse.dropWhile isWsC).reverse

/-- Accumulator form of Python `str.splitlines()`. -/
def pySplitlinesAux : List Char → List Char → List (List Char)
  | [], acc => if acc.isEmpty then [] else [acc.reverse]
  | c :: cs, acc =>
    if c = '\n' then acc.reverse :: pySplitlinesAux cs []
    else pySplitlinesAux cs (c :: acc)

/-- Model of Python `str.splitlines()` on text whose only line terminator
is `'\n'`: the empty string yields no lines, and a trailing newline does
not produce a trailing empty line. -/
def pySplitlines (l : List Char) : List (List Char) := pySplitlinesAux l []

/-- Join lines with a single `'\n'` separator, as the stdout of
`git log --pretty=format:%h` prints one hash per line. -/
def joinLines : List (List Char) → List Char
  | [] => []
  | [x] => x
  | x :: xs => x ++ '\n' :: joinLines xs

/-- State of the repository path passed to `get_last_n_commit_hashes`. -/
structure RepoEnv where
  /-- `os.path.isdir(repo_path)` (line 15). -/
  isDir : Bool
  /-- the path is a valid git repository checkout. -/
  isRepoCheckout : Bool
  /-- the `git log` subprocess exits zero (line 19). -/
  gitLogOk : Bool
  /-- commits reachable on the `develop` branch, newest first (what
  `git log develop` walks). -/
  history : List String

/-- stdout of `git -C repo log develop -nN --pretty=format:%h --reverse`:
git selects the `n` newest commits of `develop` and, because of
`--reverse`, prints them oldest first, one short hash per line. -/
def gitLogStdout (env : RepoEnv) (n : Nat) : List Char :=
  joinLines (((env.history.take n).reverse).map String.data)

/-- `get_last_n_commit_hashes(repo_path, n)` from `scripts/common.py`:
raises `ValueError` when the path is not a directory, raises
`RuntimeError` when the `git log` subprocess exits non-zero, and
otherwise returns `result.stdout.strip().splitlines()`. -/
def get_last_n_commit_hashes (env : RepoEnv) (n : Nat) :
    Except PyErr (List String) :=
  if !env.isDir then .error .valueError
  else if !env.gitLogOk then .error .runtimeError
  else .ok ((pySplitlines (pyStrip (gitLogStdout env n))).map
    (fun t => String.mk t))

/-- External-process outcomes for one revision of the sweep. -/
structure RevEnv where
  benv : BuildEnv
  renv : RunEnv
  /-- the `write_to_log` call for this revision succeeds. -/
  logOk : Bool
deriving DecidableEq

/-- One `RevisionRecord`: the dictionary
`{"index": idx, "commit": commit, "data": data}` appended to `results`. -/
structure RevRecord where
  index : Nat
  commit : String
  data : List Entry
deriving DecidableEq

/-- The build→run→parse part of one iteration of the `__main__` sweep loop
of `scripts/perfmetricsRun.py` (lines 43-49, with `BUILD_RCCL = 1` and
`BUILD_RT = 0` as in the script): build the revision, run the benchmark,
parse its output.  Returns the parsed data and the raw output text. -/
def revStep (scratch : String) (env : RevEnv) (commit : String) :
    Except PyErr (List Entry × String) :=
  match build_rccl env.benv (pathJoin scratch "rccl") (some commit) with
  | .error e => .error e
  | .ok _ =>
    match run_rccl_test env.renv with
    | .error e => .error e
    | .ok outputlog =>
      match parse_rccl_tests_output outputlog with
      | .error e => .error e
      | .ok data => .ok (data, outputlog)

/-- Trace of one whole sweep. -/
structure SweepTrace where
  /-- snapshots of `results` written to `results.json`, one per
  `json.dump` call, in order. -/
  persists : List (List RevRecord)
  /-- backup-log filesystem produced by the `write_to_log` calls. -/
  logs : List (String × String)
  /-- the final `results` list. -/
  final : List RevRecord
deriving DecidableEq

/-- The revision loop of `__main__` (lines 42-57 of
`scripts/perfmetricsRun.py`): for each enumerated commit, build, run and
parse; append the `RevisionRecord`; write the raw output to
`<scratch>/backup/<commit>.log`; dump `results` to `results.json` whenever
`idx % 4 == 0`; after the loop, dump `results` once more
unconditionally. -/
def sweepAux (scratch : String) (envs : Nat → RevEnv) :
    Nat → List String → List RevRecord → List (List RevRecord) →
    List (String × String) → Except PyErr SweepTrace
  | _, [], results, persists, logs =>
    .ok { persists := persists ++ [results], logs := logs, final := results }
  | idx, c :: cs, results, persists, logs =>
    match revStep scratch (envs idx) c with
    | .error e => .error e
    | .ok (data, outputlog) =>
      let results' := results ++ [{ index := idx, commit := c, data := data }]
      let logs' := write_to_log logs outputlog
        (pathJoin (pathJoin scratch "backup") (c ++ ".log")) (envs idx).logOk
      let persists' :=
        if idx % 4 = 0 then persists ++ [results'] else persists
      sweepAux scratch envs (idx + 1) cs results' persists' logs'

/-- Run the sweep over an enumerated commit list. -/
def runSweep (scratch : String) (envs : Nat → RevEnv) (commits : List String) :
    Except PyErr SweepTrace :=
  sweepAux scratch envs 0 commits [] [] []

/-- Exact token shape `-?\d+(\.\d+)?` (a full token matched by a float
group of the patterns). -/
def floatTok (t : List Char) : Bool :=
  !((stripNeg t).takeWhile isDigC).isEmpty &&
    (((stripNeg t).dropWhile isDigC).isEmpty ||
      fracOk ((stripNeg t).dropWhile isDigC))

/-- A token whose prefix satisfies the final group `((-?\d+)|N/A)`. -/
def lastTokOk (t : List Char) : Bool := (mLast t).isSome

/-- Shape of a full token under one interior group: a `(-?\d+)` group can
only consume a whole token that is an optionally-minus-signed digit
string, a `(\S+)` group any nonempty token, a float group a token of shape
`-?\d+(\.\d+)?`. -/
def fullTok : GSpec → List Char → Bool
  | .sint, t => pySignedDigits t
  | .nsp, t => !t.isEmpty
  | .flt, t => floatTok t

/-- Token-level reading of a whole pattern: each interior group consumes
one full whitespace-separated token, and one further token must begin as
`(-?\d+)|N/A`. -/
def tokensMatch : List GSpec → List (List Char) → Bool
  | [], [] => false
  | [], t :: _ => lastTokOk t
  | _ :: _, [] => false
  | s :: ss, t :: ts => fullTok s t && tokensMatch ss ts

/-- The value part of the `entry` dictionary once the twelve (or
thirteen) subscripted tokens are in hand: `rop` is the already-selected
reduce-op token (`columns[3]` under Layout A, the literal `"none"` under
Layout B) and `u0 ... u11` are the tokens feeding the remaining fields in
dictionary order. -/
def entryOf (u0 u1 u2 rop u3 u4 u5 u6 u7 u8 u9 u10 u11 : String) :
    Except PyErr Entry := do
  let size ← npInt64 u0
  let elements ← npInt64 u1
  let root ← npInt64 u3
  let opTime ← pyFloat u4
  let opAlgbw ← pyFloat u5
  let opBusbw ← pyFloat u6
  let opWrong ← wrongVal u7
  let ipTime ← pyFloat u8
  let ipAlgbw ← pyFloat u9
  let ipBusbw ← pyFloat u10
  let ipWrong ← wrongVal u11
  return {
    size := size, elements := elements, type := u2, redop := rop,
    root := root, op_time := opTime, op_algbw := opAlgbw,
    op_busbw := opBusbw, op_wrong := opWrong, ip_time := ipTime,
    ip_algbw := ipAlgbw, ip_busbw := ipBusbw, ip_wrong := ipWrong }

/-- Column `k` holds an optionally-minus-signed digit-string token. -/
def sdAt (cols : List String) (k : Nat) : Prop :=
  ∃ u, cols[k]? = some u ∧ pySignedDigitsS u = true

/-- Column `k` holds a token of float shape `-?\d+(\.\d+)?`. -/
def flAt (cols : List String) (k : Nat) : Prop :=
  ∃ u, cols[k]? = some u ∧ floatTok u.data = true

/-- Column `k` is present. -/
def anyAt (cols : List String) (k : Nat) : Prop := ∃ u, cols[k]? = some u

/-- The Layout A scenario line from the specification. -/
def c4line : String :=
  "1048576   262144  float   sum  -1   12.5  83.9  157.3  0   11.2  93.6  175.4  N/A"

/-- The MetricSample the specification expects for `c4line`. -/
def c4entry : Entry :=
  { size := 1048576, elements := 262144, type := "float", redop := "sum",
    root := -1, op_time := mkRat 125 10, op_algbw := mkRat 839 10,
    op_busbw := mkRat 1573 10, op_wrong := 0, ip_time := mkRat 112 10,
    ip_algbw := mkRat 936 10, ip_busbw := mkRat 1754 10, ip_wrong := 0 }

/-- A Layout-A-shaped line whose out-of-place error-count token is the
sentinel `N/A` (only the in-place token is numeric). -/
def c1NAline : String :=
  "1048576   262144  float   sum  -1   12.5  83.9  157.3  N/A   11.2  93.6  175.4  0"

/-- A Layout-B line whose size column does not fit in a signed 64-bit
integer. -/
def c6bigline : String :=
  "99999999999999999999999 1 float 0 1.5 1.5 1.5 0 1.5 1.5 1.5 0"

/-- A Layout-B-shaped line whose final error-count token is `5²`: the
pattern matches (its unanchored last group consumes the `5` as a prefix
of the token), `str.isdigit` is true of `5²` because `²` has the
Unicode digit property, and `np.int64` then raises `ValueError`. -/
def c6supline : String :=
  "1 1 float 0 1.5 1.5 1.5 0 1.5 1.5 1.5 5²"

/-- Build environment in which every external step succeeds. -/
def happyBuildEnv : BuildEnv :=
  { dirExists := true, checkoutOk := true, installShExists := true,
    buildExitOk := true, buildOutput := "" }

/-- Build environment whose build subprocess exits non-zero. -/
def failBuildEnv : BuildEnv :=
  { dirExists := true, checkoutOk := true, installShExists := true,
    buildExitOk := false, buildOutput := "make error output" }

/-- Build environment with `install.sh` absent. -/
def noInstallEnv : BuildEnv :=
  { dirExists := true, checkoutOk := true, installShExists := false,
    buildExitOk := true, buildOutput := "" }

/-- Run environment in which the benchmark runs and exits zero. -/
def happyRunEnv : RunEnv :=
  { pathVarSet := true, binExists := true, exitOk := true, output := "" }

/-- Run environment whose benchmark process exits non-zero. -/
def failRunEnv : RunEnv :=
  { pathVarSet := true, binExists := true, exitOk := false,
    output := "partial benchmark output" }

/-- A fully successful per-revision environment. -/
def happyRevEnv : RevEnv :=
  { benv := happyBuildEnv, renv := happyRunEnv, logOk := true }

/-- A per-revision environment whose build fails but whose benchmark
run succeeds. -/
def c3RevEnv : RevEnv :=
  { benv := failBuildEnv, renv := happyRunEnv, logOk := true }

/-- A path that is a directory but not a git repository checkout, so
`git log` fails there. -/
def nonRepoDirEnv : RepoEnv :=
  { isDir := true, isRepoCheckout := false, gitLogOk := false, history := [] }

/-- A valid repository with two commits, newest first. -/
def goodRepoEnv : RepoEnv :=
  { isDir := true, isRepoCheckout := true, gitLogOk := true,
    history := ["abc1234", "def5678"] }

/-- A path that is not a directory at all. -/
def noDirEnv : RepoEnv :=
  { isDir := false, isRepoCheckout := false, gitLogOk := false, history := [] }

theorem digC_not_ws {c : Char} (h : isDigC c = true) : isWsC c = false := by
  by_contra hT
  rw [Bool.not_eq_false] at hT
  simp only [isWsC, Char.isWhitespace, Bool.or_eq_true, decide_eq_true_eq] at hT
  have hv : c = ' ' ∨ c = '\t' ∨ c = '\r' ∨ c = '\n' := by tauto
  rcases hv with h1 | h1 | h1 | h1 <;> subst h1 <;> revert h <;> decide

theorem takeWhile_append_all (p : Char → Bool) (t r : List Char)
    (ht : ∀ c ∈ t, p c = true) :
    (t ++ r).takeWhile p = t ++ r.takeWhile p := by
  induction t with
  | nil => simp
  | cons c cs ih =>
    have hc := ht c (by simp)
    simp only [List.cons_append, List.takeWhile_cons, hc, if_true]
    rw [ih (fun d hd => ht d (by simp [hd]))]

theorem dropWhile_append_all (p : Char → Bool) (t r : List Char)
    (ht : ∀ c ∈ t, p c = true) :
    (t ++ r).dropWhile p = r.dropWhile p := by
  induction t with
  | nil => simp
  | cons c cs ih =>
    have hc := ht c (by simp)
    simp only [List.cons_append, List.dropWhile_cons, hc, if_true]
    exact ih (fun d hd => ht d (by simp [hd]))

theorem takeWhile_append_stop (p : Char → Bool) (t : List Char) {r : List Char}
    (ht : ∀ c ∈ t, p c = true) (hr : r.takeWhile p = []) :
    (t ++ r).takeWhile p = t := by
  rw [takeWhile_append_all p t r ht, hr, List.append_nil]

theorem dropWhile_append_stop (p : Char → Bool) (t : List Char) {r : List Char}
    (ht : ∀ c ∈ t, p c = true) (hr : r.dropWhile p = r) :
    (t ++ r).dropWhile p = r := by
  rw [dropWhile_append_all p t r ht, hr]

theorem pySplit_nil : pySplit [] = [] := rfl

theorem pySplit_ws_cons {c : Char} (cs : List Char) (hc : isWsC c = true) :
    pySplit (c :: cs) = pySplit cs := by
  simp [pySplit, pySplitAux, hc]

theorem pySplitAux_main (l : List Char) :
    ∀ acc : List Char, acc ≠ [] →
    pySplitAux l acc =
      (acc.reverse ++ l.takeWhile (fun d => !isWsC d)) ::
        pySplit (l.dropWhile fun d => !isWsC d) := by
  induction l with
  | nil =>
    intro acc hacc
    simp [pySplitAux, pySplit, List.isEmpty_iff, hacc]
  | cons c cs ih =>
    intro acc hacc
    by_cases hc : isWsC c = true
    · have hnw : (fun d => !isWsC d) c = false := by simp [hc]
      simp only [pySplitAux, hc, if_true, List.isEmpty_iff, hacc, if_false,
        List.takeWhile_cons, List.dropWhile_cons, hnw]
      simp only [Bool.not_true, Bool.false_eq_true, if_false, List.append_nil]
      rw [pySplit_ws_cons cs hc]
      simp [pySplit]
    · have hc' : isWsC c = false := by revert hc; cases isWsC c <;> simp
      have hnw : (fun d => !isWsC d) c = true := by simp [hc']
      simp only [pySplitAux, hc', Bool.false_eq_true, if_false,
        List.takeWhile_cons, List.dropWhile_cons, hnw, if_true]
      rw [ih (c :: acc) (by simp)]
      simp

theorem pySplit_cons_nonws {c : Char} (cs : List Char) (hc : isWsC c = false) :
    pySplit (c :: cs) =
      ((c :: cs).takeWhile (fun d => !isWsC d)) ::
        pySplit ((c :: cs).dropWhile fun d => !isWsC d) := by
  have hnw : (fun d => !isWsC d) c = true := by simp [hc]
  show pySplitAux (c :: cs) [] = _
  simp only [pySplitAux, hc, Bool.false_eq_true, if_false]
  rw [pySplitAux_main cs [c] (by simp)]
  simp [List.takeWhile_cons, List.dropWhile_cons, hnw]

theorem pySplit_dropWs (l : List Char) : pySplit (dropWs l) = pySplit l := by
  induction l with
  | nil => rfl
  | cons c cs ih =>
    by_cases hc : isWsC c = true
    · rw [show dropWs (c :: cs) = dropWs cs by simp [dropWs, List.dropWhile_cons, hc],
        ih, pySplit_ws_cons cs hc]
    · have hc' : isWsC c = false := by revert hc; cases isWsC c <;> simp
      rw [show dropWs (c :: cs) = c :: cs by simp [dropWs, List.dropWhile_cons, hc']]

theorem mDigits1_some {l r : List Char} (h : mDigits1 l = some r) :
    l = l.takeWhile isDigC ++ r ∧ l.takeWhile isDigC ≠ [] ∧
      r = l.dropWhile isDigC := by
  unfold mDigits1 at h
  split at h
  · exact absurd h (by simp)
  · rename_i hne
    refine ⟨?_, by simpa [List.isEmpty_iff] using hne, by
      simpa using h.symm⟩
    have := List.takeWhile_append_dropWhile isDigC l
    rw [show r = l.dropWhile isDigC from by simpa using h.symm]
    exact this.symm

theorem mSInt_some {l r : List Char} (h : mSInt l = some r) :
    ∃ t, l = t ++ r ∧ t ≠ [] ∧ (∀ c ∈ t, isWsC c = false) ∧
      pySignedDigits t = true := by
  unfold mSInt at h
  split at h
  · rename_i cs
    obtain ⟨heq, hne, _⟩ := mDigits1_some h
    refine ⟨'-' :: cs.takeWhile isDigC, by simpa using heq, by simp, ?_, ?_⟩
    · intro c hc
      rcases List.mem_cons.mp hc with h1 | h1
      · subst h1; decide
      · exact digC_not_ws (List.mem_takeWhile_imp h1)
    · have : asciiDigits (cs.takeWhile isDigC) = true := by
        simp only [asciiDigits, Bool.and_eq_true, List.all_eq_true]
        exact ⟨by simpa [List.isEmpty_iff] using hne,
          fun c hc => List.mem_takeWhile_imp hc⟩
      simp [pySignedDigits, this]
  · obtain ⟨heq, hne, _⟩ := mDigits1_some h
    refine ⟨l.takeWhile isDigC, heq, hne, ?_, ?_⟩
    · intro c hc
      exact digC_not_ws (List.mem_takeWhile_imp hc)
    · have : asciiDigits (l.takeWhile isDigC) = true := by
        simp only [asciiDigits, Bool.and_eq_true, List.all_eq_true]
        exact ⟨by simpa [List.isEmpty_iff] using hne,
          fun c hc => List.mem_takeWhile_imp hc⟩
      simp [pySignedDigits, this]

theorem mNonWs1_some {l r : List Char} (h : mNonWs1 l = some r) :
    ∃ t, l = t ++ r ∧ t ≠ [] ∧ (∀ c ∈ t, isWsC c = false) ∧
      (!t.isEmpty) = true := by
  unfold mNonWs1 at h
  split at h
  · exact absurd h (by simp)
  · rename_i hne
    refine ⟨l.takeWhile (fun d => !isWsC d), ?_, ?_, ?_, ?_⟩
    · rw [show r = l.dropWhile (fun d => !isWsC d) from by simpa using h.symm]
      exact (List.takeWhile_append_dropWhile _ _).symm
    · simpa [List.isEmpty_iff] using hne
    · intro c hc
      have := List.mem_takeWhile_imp hc
      simpa using this
    · simpa using hne

theorem pySignedDigits_elim {t : List Char} (h : pySignedDigits t = true) :
    ∃ pre ds, t = pre ++ ds ∧ (pre = [] ∨ pre = ['-']) ∧ ds ≠ [] ∧
      ∀ c ∈ ds, isDigC c = true := by
  simp only [pySignedDigits, Bool.or_eq_true] at h
  rcases h with h | h
  · simp only [asciiDigits, Bool.and_eq_true, List.all_eq_true] at h
    exact ⟨[], t, by simp, Or.inl rfl, by simpa [List.isEmpty_iff] using h.1,
      h.2⟩
  · split at h
    · rename_i r
      simp only [asciiDigits, Bool.and_eq_true, List.all_eq_true] at h
      exact ⟨['-'], r, by simp, Or.inr rfl,
        by simpa [List.isEmpty_iff] using h.1, h.2⟩
    · exact absurd h (by simp)

theorem stripNeg_neg (r : List Char) : stripNeg ('-' :: r) = r := by
  simp [stripNeg]

theorem stripNeg_head_dig {d : Char} (ds : List Char) (h : isDigC d = true) :
    stripNeg (d :: ds) = d :: ds := by
  have hd : ¬(d = '-') := by
    intro he
    subst he
    exact absurd h (by decide)
  simp [stripNeg, hd]

theorem floatTok_plain {t : List Char} (h : pySignedDigits t = true) :
    floatTok t = true := by
  obtain ⟨pre, ds, rfl, hpre, hds, hall⟩ := pySignedDigits_elim h
  have htw : ds.takeWhile isDigC = ds := List.takeWhile_eq_self_iff.mpr hall
  have hdw : ds.dropWhile isDigC = [] := List.dropWhile_eq_nil_iff.mpr hall
  obtain ⟨d, ds', rfl⟩ : ∃ d ds', ds = d :: ds' := by
    cases ds with
    | nil => exact absurd rfl hds
    | cons d ds' => exact ⟨d, ds', rfl⟩
  have hstrip : stripNeg (pre ++ d :: ds') = d :: ds' := by
    rcases hpre with rfl | rfl
    · exact stripNeg_head_dig ds' (hall d (by simp))
    · rfl
  simp only [floatTok, hstrip, htw, hdw, List.isEmpty_nil, Bool.or_true,
    Bool.and_true, Bool.not_eq_true']
  simp [List.isEmpty_iff]

theorem floatTok_frac {t ds2 : List Char} (h : pySignedDigits t = true)
    (hds2 : ds2 ≠ []) (hall2 : ∀ c ∈ ds2, isDigC c = true) :
    floatTok (t ++ '.' :: ds2) = true := by
  obtain ⟨pre, ds, rfl, hpre, hds, hall⟩ := pySignedDigits_elim h
  have hdot : isDigC '.' = false := by decide
  have htw : (ds ++ '.' :: ds2).takeWhile isDigC = ds :=
    takeWhile_append_stop isDigC ds hall
      (by rw [List.takeWhile_cons]; simp [hdot])
  have hdw : (ds ++ '.' :: ds2).dropWhile isDigC = '.' :: ds2 :=
    dropWhile_append_stop isDigC ds hall
      (by rw [List.dropWhile_cons]; simp [hdot])
  obtain ⟨d, ds', rfl⟩ : ∃ d ds', ds = d :: ds' := by
    cases ds with
    | nil => exact absurd rfl hds
    | cons d ds' => exact ⟨d, ds', rfl⟩
  have hstrip : stripNeg ((pre ++ d :: ds') ++ '.' :: ds2) =
      (d :: ds') ++ '.' :: ds2 := by
    rcases hpre with rfl | rfl
    · simp only [List.nil_append, List.cons_append]
      exact stripNeg_head_dig _ (hall d (by simp))
    · rfl
  simp only [floatTok, hstrip]
  simp only [List.cons_append] at htw hdw ⊢
  rw [htw, hdw]
  have hfr : fracOk ('.' :: ds2) = true := by
    simp only [fracOk, Bool.and_eq_true, decide_eq_true_eq, List.all_eq_true,
      Bool.not_eq_true']
    exact ⟨by simp, by simpa [List.isEmpty_iff] using hds2, hall2⟩
  simp [hfr]

theorem mFloat_some {l r : List Char} (h : mFloat l = some r) :
    ∃ t, l = t ++ r ∧ t ≠ [] ∧ (∀ c ∈ t, isWsC c = false) ∧
      floatTok t = true := by
  unfold mFloat at h
  split at h
  · exact absurd h (by simp)
  · rename_i r0 hsi
    obtain ⟨t0, rfl, ht0ne, ht0nw, ht0sd⟩ := mSInt_some hsi
    split at h
    · rename_i r2
      split at h
      · rename_i r3 hd2
        obtain ⟨heq2, hne2, _⟩ := mDigits1_some hd2
        have hr : r = r3 := by
          injection h with h1
          exact h1.symm
        subst hr
        refine ⟨t0 ++ '.' :: r2.takeWhile isDigC, ?_, by simp [ht0ne], ?_, ?_⟩
        · rw [List.append_assoc]
          simp only [List.cons_append]
          rw [← heq2]
        · intro c hc
          rcases List.mem_append.mp hc with h1 | h1
          · exact ht0nw c h1
          · rcases List.mem_cons.mp h1 with h2 | h2
            · subst h2; decide
            · exact digC_not_ws (List.mem_takeWhile_imp h2)
        · exact floatTok_frac ht0sd
            (by simpa [List.isEmpty_iff] using hne2)
            (fun c hc => List.mem_takeWhile_imp hc)
      · have hr : r = '.' :: r2 := by
          injection h with h1
          exact h1.symm
        subst hr
        exact ⟨t0, rfl, ht0ne, ht0nw, floatTok_plain ht0sd⟩
    · have hr : r = r0 := by
        injection h with h1
        exact h1.symm
      subst hr
      exact ⟨t0, rfl, ht0ne, ht0nw, floatTok_plain ht0sd⟩

theorem mSpec_some {s : GSpec} {l r : List Char} (h : mSpec s l = some r) :
    ∃ t, l = t ++ r ∧ t ≠ [] ∧ (∀ c ∈ t, isWsC c = false) ∧
      fullTok s t = true := by
  cases s with
  | sint => exact mSInt_some h
  | nsp => exact mNonWs1_some h
  | flt => exact mFloat_some h

theorem mWs1_some {r r' : List Char} (h : mWs1 r = some r') :
    ∃ w rest, r = w :: rest ∧ isWsC w = true ∧ r' = dropWs rest := by
  cases r with
  | nil => exact absurd h (by simp [mWs1])
  | cons w rest =>
    by_cases hw : isWsC w = true
    · refine ⟨w, rest, rfl, hw, ?_⟩
      have hred : mWs1 (w :: rest) = some (dropWs rest) := by simp [mWs1, hw]
      rw [hred] at h
      injection h with h1
      exact h1.symm
    · have hred : mWs1 (w :: rest) = none := by simp [mWs1, hw]
      rw [hred] at h
      exact absurd h (by simp)

theorem chain_step {s : GSpec} {l r r' : List Char}
    (h1 : mSpec s l = some r) (h2 : mWs1 r = some r') :
    fullTok s (l.takeWhile (fun d => !isWsC d)) = true ∧
      pySplit l = (l.takeWhile fun d => !isWsC d) :: pySplit r' := by
  obtain ⟨t, rfl, htne, htnw, htf⟩ := mSpec_some h1
  obtain ⟨w, rest, hr, hw, hr'⟩ := mWs1_some h2
  subst hr
  subst hr'
  have hAll : ∀ c ∈ t, (fun d => !isWsC d) c = true := by
    intro c hc
    simp [htnw c hc]
  have htk : (t ++ w :: rest).takeWhile (fun d => !isWsC d) = t :=
    takeWhile_append_stop _ t hAll (by rw [List.takeWhile_cons]; simp [hw])
  have hdr : (t ++ w :: rest).dropWhile (fun d => !isWsC d) = w :: rest :=
    dropWhile_append_stop _ t hAll (by rw [List.dropWhile_cons]; simp [hw])
  have hhead : pySplit (t ++ w :: rest) =
      ((t ++ w :: rest).takeWhile (fun d => !isWsC d)) ::
        pySplit ((t ++ w :: rest).dropWhile fun d => !isWsC d) := by
    obtain ⟨c, cs0, rfl⟩ : ∃ c cs0, t = c :: cs0 := by
      cases t with
      | nil => exact absurd rfl htne
      | cons c cs0 => exact ⟨c, cs0, rfl⟩
    have hc : isWsC c = false := htnw c (by simp)
    simpa only [List.cons_append] using pySplit_cons_nonws (cs0 ++ w :: rest) hc
  refine ⟨by rw [htk]; exact htf, ?_⟩
  rw [hhead, htk, hdr, pySplit_ws_cons rest hw, pySplit_dropWs rest]

theorem mDigits1_head_dig {d : Char} (x : List Char) (h : isDigC d = true) :
    (mDigits1 (d :: x)).isSome = true := by
  unfold mDigits1
  rw [List.takeWhile_cons]
  simp [h]

theorem mSInt_append_sd {t : List Char} (z : List Char)
    (h : pySignedDigits t = true) : (mSInt (t ++ z)).isSome = true := by
  obtain ⟨pre, ds, rfl, hpre, hds, hall⟩ := pySignedDigits_elim h
  obtain ⟨d, ds', rfl⟩ : ∃ d ds', ds = d :: ds' := by
    cases ds with
    | nil => exact absurd rfl hds
    | cons d ds' => exact ⟨d, ds', rfl⟩
  have hd := hall d (by simp)
  rcases hpre with rfl | rfl
  · simp only [List.nil_append, List.cons_append]
    unfold mSInt
    split
    · rename_i cs heq
      injection heq with h1 h2
      subst h1
      exact absurd hd (by decide)
    · exact mDigits1_head_dig _ hd
  · simp only [List.cons_append, List.append_assoc]
    show (mSInt ('-' :: (d :: ds' ++ z))).isSome = true
    rw [show mSInt ('-' :: (d :: ds' ++ z)) = mDigits1 (d :: ds' ++ z) from rfl]
    exact mDigits1_head_dig _ hd

theorem mLast_of_mSInt {y : List Char} (h : (mSInt y).isSome = true) :
    (mLast y).isSome = true := by
  unfold mLast
  cases hsi : mSInt y with
  | some r => simp
  | none => rw [hsi] at h; exact absurd h (by simp)

theorem mLast_NA (z : List Char) :
    (mLast ('N' :: '/' :: 'A' :: z)).isSome = true := by
  unfold mLast
  cases hsi : mSInt ('N' :: '/' :: 'A' :: z) with
  | some r => simp
  | none => simp [mNAlit]

theorem tokensMatch_nil_of_mLast {l : List Char}
    (h : (mLast l).isSome = true) : tokensMatch [] (pySplit l) = true := by
  cases hsi : mSInt l with
  | some r =>
    obtain ⟨t0, rfl, ht0ne, ht0nw, ht0sd⟩ := mSInt_some hsi
    obtain ⟨c, cs0, rfl⟩ : ∃ c cs0, t0 = c :: cs0 := by
      cases t0 with
      | nil => exact absurd rfl ht0ne
      | cons c cs0 => exact ⟨c, cs0, rfl⟩
    have hc : isWsC c = false := ht0nw c (by simp)
    have hsplit := pySplit_cons_nonws (cs0 ++ r) hc
    rw [List.cons_append] at *
    rw [hsplit]
    have hAll : ∀ d ∈ c :: cs0, (fun d => !isWsC d) d = true := by
      intro d hd
      simp [ht0nw d hd]
    have htk : ((c :: cs0) ++ r).takeWhile (fun d => !isWsC d) =
        (c :: cs0) ++ r.takeWhile (fun d => !isWsC d) :=
      takeWhile_append_all _ _ _ hAll
    rw [List.cons_append] at htk
    rw [htk]
    show lastTokOk ((c :: cs0) ++ r.takeWhile fun d => !isWsC d) = true
    exact mLast_of_mSInt (mSInt_append_sd _ ht0sd)
  | none =>
    have hred : mLast l = mNAlit l := by
      unfold mLast
      rw [hsi]
    rw [hred] at h
    obtain ⟨z, rfl⟩ : ∃ z, l = 'N' :: '/' :: 'A' :: z := by
      unfold mNAlit at h
      split at h
      · rename_i z
        exact ⟨z, rfl⟩
      · exact absurd h (by simp)
    have hc : isWsC 'N' = false := by decide
    rw [pySplit_cons_nonws _ hc]
    rw [List.takeWhile_cons]
    rw [List.takeWhile_cons]
    rw [List.takeWhile_cons]
    simp only [show ((fun d => !isWsC d) 'N') = true from by decide, if_true,
      show ((fun d => !isWsC d) '/') = true from by decide,
      show ((fun d => !isWsC d) 'A') = true from by decide]
    show lastTokOk ('N' :: '/' :: 'A' :: _) = true
    exact mLast_NA _

theorem chainFrom_tokens (specs : List GSpec) :
    ∀ l r : List Char, chainFrom specs l = some r →
      (mLast r).isSome = true → tokensMatch specs (pySplit l) = true := by
  induction specs with
  | nil =>
    intro l r hc hl
    have : l = r := by
      simpa [chainFrom] using hc
    subst this
    exact tokensMatch_nil_of_mLast hl
  | cons s ss ih =>
    intro l r hc hl
    unfold chainFrom at hc
    split at hc
    · exact absurd hc (by simp)
    · rename_i r0 h1
      split at hc
      · exact absurd hc (by simp)
      · rename_i r1 h2
        obtain ⟨hft, hps⟩ := chain_step h1 h2
        rw [hps]
        show (fullTok s _ && tokensMatch ss _) = true
        rw [hft, ih r1 r hc hl]
        rfl

theorem matchPat_tokens {specs : List GSpec} {l : List Char}
    (h : matchPat specs l = true) : tokensMatch specs (pySplit l) = true := by
  unfold matchPat at h
  split at h
  · exact absurd h (by simp)
  · rename_i r heq
    have := chainFrom_tokens specs (dropWs l) r heq h
    rwa [pySplit_dropWs] at this

theorem tokensMatch_length {specs : List GSpec} :
    ∀ {toks : List (List Char)}, tokensMatch specs toks = true →
      specs.length < toks.length := by
  induction specs with
  | nil =>
    intro toks h
    cases toks with
    | nil => exact absurd h (by simp [tokensMatch])
    | cons t ts => simp
  | cons s ss ih =>
    intro toks h
    cases toks with
    | nil => exact absurd h (by simp [tokensMatch])
    | cons t ts =>
      have h2 : tokensMatch ss ts = true := by
        have := h
        simp only [tokensMatch, Bool.and_eq_true] at this
        exact this.2
      simpa using Nat.succ_lt_succ (ih h2)

theorem tokensMatch_get {specs : List GSpec} :
    ∀ {toks : List (List Char)} {k : Nat} {s : GSpec},
      tokensMatch specs toks = true → specs[k]? = some s →
      ∃ t, toks[k]? = some t ∧ fullTok s t = true := by
  induction specs with
  | nil =>
    intro toks k s _ hk
    exact absurd hk (by simp)
  | cons s0 ss ih =>
    intro toks k s h hk
    cases toks with
    | nil => exact absurd h (by simp [tokensMatch])
    | cons t ts =>
      simp only [tokensMatch, Bool.and_eq_true] at h
      cases k with
      | zero =>
        refine ⟨t, by simp, ?_⟩
        have : s0 = s := by simpa using hk
        subst this
        exact h.1
      | succ k' =>
        have hk' : ss[k']? = some s := by simpa using hk
        obtain ⟨t', ht', hft⟩ := ih h.2 hk'
        exact ⟨t', by simpa using ht', hft⟩

theorem tokensMatch_last {specs : List GSpec} :
    ∀ {toks : List (List Char)}, tokensMatch specs toks = true →
      ∃ t, toks[specs.length]? = some t ∧ lastTokOk t = true := by
  induction specs with
  | nil =>
    intro toks h
    cases toks with
    | nil => exact absurd h (by simp [tokensMatch])
    | cons t ts =>
      exact ⟨t, by simp, by simpa [tokensMatch] using h⟩
  | cons s0 ss ih =>
    intro toks h
    cases toks with
    | nil => exact absurd h (by simp [tokensMatch])
    | cons t ts =>
      simp only [tokensMatch, Bool.and_eq_true] at h
      obtain ⟨t', ht', hl⟩ := ih h.2
      exact ⟨t', by simpa using ht', hl⟩

theorem getCol_eq {cols : List String} {k : Nat} {t : String}
    (h : cols[k]? = some t) : getCol cols k = .ok t := by
  unfold getCol
  rw [h]

theorem pySignedDigits_parse {t : List Char} (h : pySignedDigits t = true) :
    ∃ v, parseSignedDigits t = some v := by
  obtain ⟨pre, ds, rfl, hpre, hds, hall⟩ := pySignedDigits_elim h
  have hdig : asciiDigits ds = true := by
    simp only [asciiDigits, Bool.and_eq_true, List.all_eq_true]
    constructor
    · simpa [List.isEmpty_iff] using hds
    · exact hall
  rcases hpre with rfl | rfl
  · obtain ⟨d, ds', rfl⟩ : ∃ d ds', ds = d :: ds' := by
      cases ds with
      | nil => exact absurd rfl hds
      | cons d ds' => exact ⟨d, ds', rfl⟩
    have hd := hall d (by simp)
    simp only [List.nil_append]
    unfold parseSignedDigits
    split
    · rename_i cs heq
      injection heq with hh1 hh2
      subst hh1
      exact absurd hd (by decide)
    · rw [hdig]
      exact ⟨(digitsVal (d :: ds') : Int), by simp⟩
  · show ∃ v, parseSignedDigits ('-' :: ds) = some v
    rw [show parseSignedDigits ('-' :: ds) =
      (if asciiDigits ds then some (-(digitsVal ds : Int)) else none) from rfl]
    rw [hdig]
    exact ⟨-(digitsVal ds : Int), by simp⟩

theorem npInt64_shape {t : String} (h : pySignedDigitsS t = true) :
    npInt64 t = .error .overflowError ∨ ∃ v, npInt64 t = .ok v := by
  obtain ⟨v, hv⟩ := pySignedDigits_parse h
  have hred : npInt64 t = if v < -(2 ^ 63) ∨ 2 ^ 63 ≤ v then
      Except.error PyErr.overflowError else Except.ok v := by
    unfold npInt64
    rw [hv]
  by_cases hr : v < -(2 ^ 63) ∨ 2 ^ 63 ≤ v
  · left
    rw [hred, if_pos hr]
  · right
    exact ⟨v, by rw [hred, if_neg hr]⟩

theorem parseSignedDigits_sd {t : List Char} {v : Int}
    (h : parseSignedDigits t = some v) : pySignedDigits t = true := by
  unfold parseSignedDigits at h
  split at h
  · rename_i r
    by_cases ha : asciiDigits r = true
    · simp [pySignedDigits, ha]
    · rw [if_neg (by simp [ha])] at h
      exact Option.noConfusion h
  · by_cases ha : asciiDigits t = true
    · simp [pySignedDigits, ha]
    · rw [if_neg (by simp [ha])] at h
      exact Option.noConfusion h

theorem npInt64_ok_sd {t : String} {v : Int} (h : npInt64 t = .ok v) :
    pySignedDigitsS t = true := by
  unfold npInt64 at h
  cases hps : parseSignedDigits t.data with
  | none =>
    rw [hps] at h
    exact Except.noConfusion h
  | some w => exact parseSignedDigits_sd hps

theorem npInt64_err {t : String} {e : PyErr} (h : npInt64 t = .error e) :
    e = .overflowError ∨ e = .valueError := by
  cases hps : parseSignedDigits t.data with
  | none =>
    have hred : npInt64 t = .error .valueError := by
      unfold npInt64
      rw [hps]
    rw [hred] at h
    injection h with h1
    exact Or.inr h1.symm
  | some w =>
    have hred : npInt64 t = if w < -(2 ^ 63) ∨ 2 ^ 63 ≤ w then
        Except.error PyErr.overflowError else Except.ok w := by
      unfold npInt64
      rw [hps]
    rw [hred] at h
    split at h
    · injection h with h1
      exact Or.inl h1.symm
    · exact Except.noConfusion h

theorem asciiDigits_isdigit {t : List Char} (h : asciiDigits t = true) :
    pyIsdigit t = true := by
  simp only [asciiDigits, Bool.and_eq_true, List.all_eq_true] at h
  simp only [pyIsdigit, Bool.and_eq_true, List.all_eq_true]
  exact ⟨h.1, fun c hc => by simp [h.2 c hc]⟩

theorem sd_wrongGuard {t : List Char} (h : pySignedDigits t = true) :
    wrongGuard t = true := by
  obtain ⟨pre, ds, rfl, hpre, hds, hall⟩ := pySignedDigits_elim h
  have hd : pyIsdigit ds = true := by
    simp only [pyIsdigit, Bool.and_eq_true, List.all_eq_true]
    exact ⟨by simpa [List.isEmpty_iff] using hds,
      fun c hc => by simp [hall c hc]⟩
  rcases hpre with rfl | rfl
  · simp only [List.nil_append, wrongGuard, Bool.or_eq_true]
    exact Or.inl hd
  · simp only [List.cons_append, List.nil_append, wrongGuard,
      Bool.or_eq_true]
    exact Or.inr hd

theorem stripNeg_self {l : List Char} (h : ∀ r, l ≠ '-' :: r) :
    stripNeg l = l := by
  cases l with
  | nil => rfl
  | cons c cs =>
    have hc : ¬(c = '-') := by
      intro he
      subst he
      exact absurd rfl (h cs)
    simp [stripNeg, hc]

theorem parseDecimalQ_ok {l : List Char}
    (h1 : (l.takeWhile isDigC).isEmpty = false)
    (h2 : (l.dropWhile isDigC).isEmpty = true ∨
      fracOk (l.dropWhile isDigC) = true) :
    ∃ q, pyFloat.parseDecimalQ l = some q := by
  unfold pyFloat.parseDecimalQ
  simp only [h1, Bool.false_eq_true, if_false]
  rcases h2 with h2 | h2
  · rw [if_pos h2]
    exact ⟨_, rfl⟩
  · rcases Bool.eq_false_or_eq_true (l.dropWhile isDigC).isEmpty with he | he
    · rw [if_pos he]
      exact ⟨_, rfl⟩
    · rw [if_neg (by simp [he]), if_pos h2]
      exact ⟨_, rfl⟩

theorem pyFloat_ok {t : String} (h : floatTok t.data = true) :
    ∃ q, pyFloat t = .ok q := by
  simp only [floatTok, Bool.and_eq_true, Bool.or_eq_true,
    Bool.not_eq_true'] at h
  obtain ⟨hne, hrest⟩ := h
  have hdq : ∃ q, pyFloat.parseDecimalQ (stripNeg t.data) = some q :=
    parseDecimalQ_ok hne (by
      rcases hrest with h' | h'
      · exact Or.inl (by simpa [List.isEmpty_iff] using h')
      · exact Or.inr h')
  unfold pyFloat
  by_cases hneg : pyFloat.negated t.data = true
  · rw [if_pos hneg]
    obtain ⟨q, hq⟩ := hdq
    rw [hq]
    exact ⟨-q, rfl⟩
  · rw [if_neg hneg]
    have hstrip : stripNeg t.data = t.data := by
      cases hd : t.data with
      | nil => rfl
      | cons c cs =>
        have hc : ¬(c = '-') := by
          intro he
          rw [hd] at hneg
          unfold pyFloat.negated at hneg
          subst he
          simp at hneg
        simp [stripNeg, hc]
    rw [hstrip] at hdq
    obtain ⟨q, hq⟩ := hdq
    rw [hq]
    exact ⟨q, rfl⟩

theorem mkEntry_eq0 {cols : List String}
    {u0 u1 u2 u3 u4 u5 u6 u7 u8 u9 u10 u11 : String}
    (h0 : cols[0]? = some u0) (h1 : cols[1]? = some u1)
    (h2 : cols[2]? = some u2) (h3 : cols[3]? = some u3)
    (h4 : cols[4]? = some u4) (h5 : cols[5]? = some u5)
    (h6 : cols[6]? = some u6) (h7 : cols[7]? = some u7)
    (h8 : cols[8]? = some u8) (h9 : cols[9]? = some u9)
    (h10 : cols[10]? = some u10) (h11 : cols[11]? = some u11) :
    mkEntry cols 0 = entryOf u0 u1 u2 "none" u3 u4 u5 u6 u7 u8 u9 u10 u11 := by
  simp only [mkEntry, entryOf, bind, Except.bind, pure, Except.pure,
    Nat.add_zero, getCol_eq h0, getCol_eq h1, getCol_eq h2, getCol_eq h3,
    getCol_eq h4, getCol_eq h5, getCol_eq h6, getCol_eq h7, getCol_eq h8,
    getCol_eq h9, getCol_eq h10, getCol_eq h11, Nat.zero_ne_one, if_false,
    reduceIte]

theorem mkEntry_eq1 {cols : List String}
    {u0 u1 u2 u3 u4 u5 u6 u7 u8 u9 u10 u11 u12 : String}
    (h0 : cols[0]? = some u0) (h1 : cols[1]? = some u1)
    (h2 : cols[2]? = some u2) (h3 : cols[3]? = some u3)
    (h4 : cols[4]? = some u4) (h5 : cols[5]? = some u5)
    (h6 : cols[6]? = some u6) (h7 : cols[7]? = some u7)
    (h8 : cols[8]? = some u8) (h9 : cols[9]? = some u9)
    (h10 : cols[10]? = some u10) (h11 : cols[11]? = some u11)
    (h12 : cols[12]? = some u12) :
    mkEntry cols 1 = entryOf u0 u1 u2 u3 u4 u5 u6 u7 u8 u9 u10 u11 u12 := by
  have e2 : (2 + 1 : Nat) = 3 := rfl
  have e3 : (3 + 1 : Nat) = 4 := rfl
  have e4 : (4 + 1 : Nat) = 5 := rfl
  have e5 : (5 + 1 : Nat) = 6 := rfl
  have e6 : (6 + 1 : Nat) = 7 := rfl
  have e7 : (7 + 1 : Nat) = 8 := rfl
  have e8 : (8 + 1 : Nat) = 9 := rfl
  have e9 : (9 + 1 : Nat) = 10 := rfl
  have e10 : (10 + 1 : Nat) = 11 := rfl
  have e11 : (11 + 1 : Nat) = 12 := rfl
  simp only [mkEntry, entryOf, bind, Except.bind, pure, Except.pure,
    e2, e3, e4, e5, e6, e7, e8, e9, e10, e11,
    getCol_eq h0, getCol_eq h1, getCol_eq h2, getCol_eq h3,
    getCol_eq h4, getCol_eq h5, getCol_eq h6, getCol_eq h7, getCol_eq h8,
    getCol_eq h9, getCol_eq h10, getCol_eq h11, getCol_eq h12, reduceIte]

theorem wrongVal_sd {t : String} (h : pySignedDigitsS t = true) :
    wrongVal t = npInt64 t := by
  unfold wrongVal
  rw [if_pos (sd_wrongGuard h)]

theorem wrongVal_ok_not_sd {t : String} {v : Int}
    (h : wrongVal t = .ok v) (hs : pySignedDigitsS t = false) : v = 0 := by
  unfold wrongVal at h
  split at h
  · exact absurd (npInt64_ok_sd h) (by simp [hs])
  · simp only [pure, Except.pure] at h
    injection h with h1
    exact h1.symm

theorem wrongVal_err {t : String} {e : PyErr} (h : wrongVal t = .error e) :
    e = .overflowError ∨ e = .valueError := by
  unfold wrongVal at h
  split at h
  · exact npInt64_err h
  · exact absurd h (by simp [pure, Except.pure])

theorem entryOf_ok {u0 u1 u2 rop u3 u4 u5 u6 u7 u8 u9 u10 u11 : String}
    {e : Entry}
    (h : entryOf u0 u1 u2 rop u3 u4 u5 u6 u7 u8 u9 u10 u11 = .ok e) :
    npInt64 u0 = .ok e.size ∧ npInt64 u1 = .ok e.elements ∧ e.type = u2 ∧
    e.redop = rop ∧ npInt64 u3 = .ok e.root ∧ pyFloat u4 = .ok e.op_time ∧
    pyFloat u5 = .ok e.op_algbw ∧ pyFloat u6 = .ok e.op_busbw ∧
    wrongVal u7 = .ok e.op_wrong ∧
    pyFloat u8 = .ok e.ip_time ∧ pyFloat u9 = .ok e.ip_algbw ∧
    pyFloat u10 = .ok e.ip_busbw ∧ wrongVal u11 = .ok e.ip_wrong := by
  simp only [entryOf, bind, Except.bind, pure, Except.pure] at h
  repeat
    first
    | split at h
    | exact Except.noConfusion h
  injection h with h'
  subst h'
  refine ⟨by assumption, by assumption, rfl, rfl, by assumption,
    by assumption, by assumption, by assumption, by assumption,
    by assumption, by assumption, by assumption, by assumption⟩

theorem entryOf_err {u0 u1 u2 rop u3 u4 u5 u6 u7 u8 u9 u10 u11 : String}
    {er : PyErr}
    (hs0 : pySignedDigitsS u0 = true) (hs1 : pySignedDigitsS u1 = true)
    (hs3 : pySignedDigitsS u3 = true)
    (hf4 : floatTok u4.data = true) (hf5 : floatTok u5.data = true)
    (hf6 : floatTok u6.data = true) (hf8 : floatTok u8.data = true)
    (hf9 : floatTok u9.data = true) (hf10 : floatTok u10.data = true)
    (h : entryOf u0 u1 u2 rop u3 u4 u5 u6 u7 u8 u9 u10 u11 = .error er) :
    er = .overflowError ∨ er = .valueError := by
  obtain ⟨q4, hq4⟩ := pyFloat_ok hf4
  obtain ⟨q5, hq5⟩ := pyFloat_ok hf5
  obtain ⟨q6, hq6⟩ := pyFloat_ok hf6
  obtain ⟨q8, hq8⟩ := pyFloat_ok hf8
  obtain ⟨q9, hq9⟩ := pyFloat_ok hf9
  obtain ⟨q10, hq10⟩ := pyFloat_ok hf10
  simp only [entryOf, bind, Except.bind, pure, Except.pure,
    hq4, hq5, hq6, hq8, hq9, hq10] at h
  rcases npInt64_shape hs0 with h0 | ⟨v0, h0⟩
  all_goals rw [h0] at h
  · injection h with h1
    exact Or.inl h1.symm
  rcases npInt64_shape hs1 with h1 | ⟨v1, h1⟩
  all_goals rw [h1] at h
  · injection h with h1
    exact Or.inl h1.symm
  rcases npInt64_shape hs3 with h3 | ⟨v3, h3⟩
  all_goals rw [h3] at h
  · injection h with h1
    exact Or.inl h1.symm
  cases hw7 : wrongVal u7 with
  | error a =>
    rw [hw7] at h
    injection h with h1
    subst h1
    exact wrongVal_err hw7
  | ok w7 =>
  rw [hw7] at h
  cases hw11 : wrongVal u11 with
  | error a =>
    rw [hw11] at h
    injection h with h1
    subst h1
    exact wrongVal_err hw11
  | ok w11 =>
  rw [hw11] at h
  exact absurd h (by simp)

theorem pySplitStr_get {line : String} {k : Nat} {t : List Char}
    (h : (pySplit line.data)[k]? = some t) :
    (pySplitStr line)[k]? = some (String.mk t) := by
  unfold pySplitStr
  rw [List.getElem?_map, h]
  rfl

theorem pattern2_facts {line : String} (h : pattern2Match line = true) :
    sdAt (pySplitStr line) 0 ∧ sdAt (pySplitStr line) 1 ∧
    anyAt (pySplitStr line) 2 ∧ sdAt (pySplitStr line) 3 ∧
    flAt (pySplitStr line) 4 ∧ flAt (pySplitStr line) 5 ∧
    flAt (pySplitStr line) 6 ∧ sdAt (pySplitStr line) 7 ∧
    flAt (pySplitStr line) 8 ∧ flAt (pySplitStr line) 9 ∧
    flAt (pySplitStr line) 10 ∧ anyAt (pySplitStr line) 11 ∧
    12 ≤ (pySplitStr line).length := by
  have htm : tokensMatch specs2 (pySplit line.data) = true :=
    matchPat_tokens h
  have hlen : 12 ≤ (pySplitStr line).length := by
    have := tokensMatch_length htm
    simp only [specs2, List.length_cons, List.length_nil] at this
    simpa [pySplitStr] using this
  refine ⟨?_, ?_, ?_, ?_, ?_, ?_, ?_, ?_, ?_, ?_, ?_, ?_, hlen⟩
  case _ =>
    obtain ⟨t, ht, hf⟩ := tokensMatch_get htm
      (show specs2[0]? = some .sint from rfl)
    exact ⟨String.mk t, pySplitStr_get ht, hf⟩
  case _ =>
    obtain ⟨t, ht, hf⟩ := tokensMatch_get htm
      (show specs2[1]? = some .sint from rfl)
    exact ⟨String.mk t, pySplitStr_get ht, hf⟩
  case _ =>
    obtain ⟨t, ht, hf⟩ := tokensMatch_get htm
      (show specs2[2]? = some .nsp from rfl)
    exact ⟨String.mk t, pySplitStr_get ht⟩
  case _ =>
    obtain ⟨t, ht, hf⟩ := tokensMatch_get htm
      (show specs2[3]? = some .sint from rfl)
    exact ⟨String.mk t, pySplitStr_get ht, hf⟩
  case _ =>
    obtain ⟨t, ht, hf⟩ := tokensMatch_get htm
      (show specs2[4]? = some .flt from rfl)
    exact ⟨String.mk t, pySplitStr_get ht, hf⟩
  case _ =>
    obtain ⟨t, ht, hf⟩ := tokensMatch_get htm
      (show specs2[5]? = some .flt from rfl)
    exact ⟨String.mk t, pySplitStr_get ht, hf⟩
  case _ =>
    obtain ⟨t, ht, hf⟩ := tokensMatch_get htm
      (show specs2[6]? = some .flt from rfl)
    exact ⟨String.mk t, pySplitStr_get ht, hf⟩
  case _ =>
    obtain ⟨t, ht, hf⟩ := tokensMatch_get htm
      (show specs2[7]? = some .sint from rfl)
    exact ⟨String.mk t, pySplitStr_get ht, hf⟩
  case _ =>
    obtain ⟨t, ht, hf⟩ := tokensMatch_get htm
      (show specs2[8]? = some .flt from rfl)
    exact ⟨String.mk t, pySplitStr_get ht, hf⟩
  case _ =>
    obtain ⟨t, ht, hf⟩ := tokensMatch_get htm
      (show specs2[9]? = some .flt from rfl)
    exact ⟨String.mk t, pySplitStr_get ht, hf⟩
  case _ =>
    obtain ⟨t, ht, hf⟩ := tokensMatch_get htm
      (show specs2[10]? = some .flt from rfl)
    exact ⟨String.mk t, pySplitStr_get ht, hf⟩
  case _ =>
    obtain ⟨t, ht, _⟩ := tokensMatch_last htm
    exact ⟨String.mk t, pySplitStr_get ht⟩

theorem pattern1_facts {line : String} (h : pattern1Match line = true) :
    sdAt (pySplitStr line) 0 ∧ sdAt (pySplitStr line) 1 ∧
    anyAt (pySplitStr line) 2 ∧ anyAt (pySplitStr line) 3 ∧
    sdAt (pySplitStr line) 4 ∧ flAt (pySplitStr line) 5 ∧
    flAt (pySplitStr line) 6 ∧ flAt (pySplitStr line) 7 ∧
    sdAt (pySplitStr line) 8 ∧ flAt (pySplitStr line) 9 ∧
    flAt (pySplitStr line) 10 ∧ flAt (pySplitStr line) 11 ∧
    anyAt (pySplitStr line) 12 ∧ 13 ≤ (pySplitStr line).length := by
  have htm : tokensMatch specs1 (pySplit line.data) = true :=
    matchPat_tokens h
  have hlen : 13 ≤ (pySplitStr line).length := by
    have := tokensMatch_length htm
    simp only [specs1, List.length_cons, List.length_nil] at this
    simpa [pySplitStr] using this
  refine ⟨?_, ?_, ?_, ?_, ?_, ?_, ?_, ?_, ?_, ?_, ?_, ?_, ?_, hlen⟩
  case _ =>
    obtain ⟨t, ht, hf⟩ := tokensMatch_get htm
      (show specs1[0]? = some .sint from rfl)
    exact ⟨String.mk t, pySplitStr_get ht, hf⟩
  case _ =>
    obtain ⟨t, ht, hf⟩ := tokensMatch_get htm
      (show specs1[1]? = some .sint from rfl)
    exact ⟨String.mk t, pySplitStr_get ht, hf⟩
  case _ =>
    obtain ⟨t, ht, hf⟩ := tokensMatch_get htm
      (show specs1[2]? = some .nsp from rfl)
    exact ⟨String.mk t, pySplitStr_get ht⟩
  case _ =>
    obtain ⟨t, ht, hf⟩ := tokensMatch_get htm
      (show specs1[3]? = some .nsp from rfl)
    exact ⟨String.mk t, pySplitStr_get ht⟩
  case _ =>
    obtain ⟨t, ht, hf⟩ := tokensMatch_get htm
      (show specs1[4]? = some .sint from rfl)
    exact ⟨String.mk t, pySplitStr_get ht, hf⟩
  case _ =>
    obtain ⟨t, ht, hf⟩ := tokensMatch_get htm
      (show specs1[5]? = some .flt from rfl)
    exact ⟨String.mk t, pySplitStr_get ht, hf⟩
  case _ =>
    obtain ⟨t, ht, hf⟩ := tokensMatch_get htm
      (show specs1[6]? = some .flt from rfl)
    exact ⟨String.mk t, pySplitStr_get ht, hf⟩
  case _ =>
    obtain ⟨t, ht, hf⟩ := tokensMatch_get htm
      (show specs1[7]? = some .flt from rfl)
    exact ⟨String.mk t, pySplitStr_get ht, hf⟩
  case _ =>
    obtain ⟨t, ht, hf⟩ := tokensMatch_get htm
      (show specs1[8]? = some .sint from rfl)
    exact ⟨String.mk t, pySplitStr_get ht, hf⟩
  case _ =>
    obtain ⟨t, ht, hf⟩ := tokensMatch_get htm
      (show specs1[9]? = some .flt from rfl)
    exact ⟨String.mk t, pySplitStr_get ht, hf⟩
  case _ =>
    obtain ⟨t, ht, hf⟩ := tokensMatch_get htm
      (show specs1[10]? = some .flt from rfl)
    exact ⟨String.mk t, pySplitStr_get ht, hf⟩
  case _ =>
    obtain ⟨t, ht, hf⟩ := tokensMatch_get htm
      (show specs1[11]? = some .flt from rfl)
    exact ⟨String.mk t, pySplitStr_get ht, hf⟩
  case _ =>
    obtain ⟨t, ht, _⟩ := tokensMatch_last htm
    exact ⟨String.mk t, pySplitStr_get ht⟩

theorem mkEntry_line_err {line : String} {e : PyErr}
    (hm : (pattern1Match line || pattern2Match line) = true)
    (h : mkEntry (pySplitStr line)
      (if pattern1Match line then 1 else 0) = .error e) :
    e = .overflowError ∨ e = .valueError := by
  by_cases h1 : pattern1Match line = true
  · rw [if_pos h1] at h
    obtain ⟨⟨u0, hu0, hs0⟩, ⟨u1, hu1, hs1⟩, ⟨u2, hu2⟩, ⟨u3, hu3⟩,
      ⟨u4, hu4, hs4⟩, ⟨u5, hu5, hf5⟩, ⟨u6, hu6, hf6⟩, ⟨u7, hu7, hf7⟩,
      ⟨u8, hu8, hs8⟩, ⟨u9, hu9, hf9⟩, ⟨u10, hu10, hf10⟩, ⟨u11, hu11, hf11⟩,
      ⟨u12, hu12⟩, hlen⟩ := pattern1_facts h1
    rw [mkEntry_eq1 hu0 hu1 hu2 hu3 hu4 hu5 hu6 hu7 hu8 hu9 hu10 hu11
      hu12] at h
    exact entryOf_err hs0 hs1 hs4 hf5 hf6 hf7 hf9 hf10 hf11 h
  · have h2 : pattern2Match line = true := by
      rcases Bool.or_eq_true_iff.mp hm with hx | hx
      · exact absurd hx h1
      · exact hx
    rw [if_neg h1] at h
    obtain ⟨⟨u0, hu0, hs0⟩, ⟨u1, hu1, hs1⟩, ⟨u2, hu2⟩, ⟨u3, hu3, hs3⟩,
      ⟨u4, hu4, hf4⟩, ⟨u5, hu5, hf5⟩, ⟨u6, hu6, hf6⟩, ⟨u7, hu7, hs7⟩,
      ⟨u8, hu8, hf8⟩, ⟨u9, hu9, hf9⟩, ⟨u10, hu10, hf10⟩, ⟨u11, hu11⟩,
      hlen⟩ := pattern2_facts h2
    rw [mkEntry_eq0 hu0 hu1 hu2 hu3 hu4 hu5 hu6 hu7 hu8 hu9 hu10 hu11] at h
    exact entryOf_err hs0 hs1 hs3 hf4 hf5 hf6 hf8 hf9 hf10 h

theorem bool_false_of_not_true {b : Bool} (h : ¬b = true) : b = false := by
  cases b
  · rfl
  · exact absurd rfl h

theorem gate_false_elim {line : String}
    (hg : (startsHashHash line ||
      !(pattern1Match line || pattern2Match line)) = false) :
    startsHashHash line = false ∧
      (pattern1Match line || pattern2Match line) = true := by
  constructor
  · cases hs : startsHashHash line
    · rfl
    · rw [hs] at hg
      simp at hg
  · cases hm : (pattern1Match line || pattern2Match line)
    · rw [hm] at hg
      simp at hg
    · rfl

theorem accepted_length {line : String}
    (hm : (pattern1Match line || pattern2Match line) = true) :
    12 ≤ (pySplitStr line).length := by
  cases hp1 : pattern1Match line
  · have hp2 : pattern2Match line = true := by
      rw [hp1] at hm
      simpa using hm
    have h := (pattern2_facts hp2).2.2.2.2.2.2.2.2.2.2.2.2
    omega
  · have h := (pattern1_facts hp1).2.2.2.2.2.2.2.2.2.2.2.2.2
    omega

theorem lineStep_gate_skip (st : Option Entry × List Entry) {line : String}
    (hg : (startsHashHash line ||
      !(pattern1Match line || pattern2Match line)) = true) :
    lineStep st line = .ok st := by
  unfold lineStep
  rw [hg]
  simp

theorem lineStep_main_eq (st : Option Entry × List Entry) {line : String}
    (hsh : startsHashHash line = false)
    (hm : (pattern1Match line || pattern2Match line) = true)
    (hlen : 12 ≤ (pySplitStr line).length) :
    lineStep st line =
      match mkEntry (pySplitStr line)
        (if pattern1Match line then 1 else 0) with
      | .error er => .error er
      | .ok e => .ok (some e, st.2 ++ [e]) := by
  unfold lineStep
  rw [hsh, hm]
  simp only [Bool.not_true, Bool.or_false, Bool.false_eq_true, if_false]
  rw [if_pos hlen]

theorem lineStep_skip {st : Option Entry × List Entry} {line : String}
    (h : startsHashHash line = true ∨
      (pattern1Match line = false ∧ pattern2Match line = false) ∨
      (pySplitStr line).length < 12) :
    lineStep st line = .ok st := by
  cases hg : (startsHashHash line ||
      !(pattern1Match line || pattern2Match line)) with
  | true => exact lineStep_gate_skip st hg
  | false =>
    obtain ⟨hsh, hm⟩ := gate_false_elim hg
    exfalso
    rcases h with h | h | h
    · rw [hsh] at h
      exact absurd h (by simp)
    · rw [h.1, h.2] at hm
      exact absurd hm (by simp)
    · have := accepted_length hm
      omega

theorem lineStep_err {st : Option Entry × List Entry} {line : String}
    {e : PyErr} (h : lineStep st line = .error e) :
    e = .overflowError ∨ e = .valueError := by
  cases hg : (startsHashHash line ||
      !(pattern1Match line || pattern2Match line)) with
  | true =>
    rw [lineStep_gate_skip st hg] at h
    exact absurd h (by simp)
  | false =>
    obtain ⟨hsh, hm⟩ := gate_false_elim hg
    have hlen := accepted_length hm
    rw [lineStep_main_eq st hsh hm hlen] at h
    cases hmk : mkEntry (pySplitStr line)
        (if pattern1Match line then 1 else 0) with
    | error er =>
      rw [hmk] at h
      injection h with h1
      subst h1
      exact mkEntry_line_err hm hmk
    | ok e' =>
      rw [hmk] at h
      exact absurd h (by simp)

theorem lineStep_produce {st st' : Option Entry × List Entry} {line : String}
    (h : lineStep st line = .ok st') (hne : st'.2 ≠ st.2) :
    startsHashHash line = false ∧
    (pattern1Match line || pattern2Match line) = true ∧
    ∃ e, mkEntry (pySplitStr line)
      (if pattern1Match line then 1 else 0) = .ok e ∧
      st' = (some e, st.2 ++ [e]) := by
  cases hg : (startsHashHash line ||
      !(pattern1Match line || pattern2Match line)) with
  | true =>
    rw [lineStep_gate_skip st hg] at h
    injection h with h1
    exact absurd (congrArg Prod.snd h1) (fun hx => hne hx.symm)
  | false =>
    obtain ⟨hsh, hm⟩ := gate_false_elim hg
    have hlen := accepted_length hm
    rw [lineStep_main_eq st hsh hm hlen] at h
    cases hmk : mkEntry (pySplitStr line)
        (if pattern1Match line then 1 else 0) with
    | error er =>
      rw [hmk] at h
      exact absurd h (by simp)
    | ok e' =>
      rw [hmk] at h
      injection h with h1
      exact ⟨hsh, hm, ⟨e', rfl, h1.symm⟩⟩

theorem parseLines_err {e : PyErr} :
    ∀ (ls : List String) (st : Option Entry × List Entry),
      parseLines st ls = .error e →
        e = .overflowError ∨ e = .valueError := by
  intro ls
  induction ls with
  | nil =>
    intro st h
    exact absurd h (by simp [parseLines])
  | cons l ls ih =>
    intro st h
    unfold parseLines at h
    split at h
    · rename_i a ha
      injection h with h1
      subst h1
      exact lineStep_err ha
    · rename_i st' hst'
      exact ih st' h

theorem parse_err {s : String} {e : PyErr}
    (h : parse_rccl_tests_output s = .error e) :
    e = .overflowError ∨ e = .valueError :=
  parseLines_err _ _ h

theorem build_rccl_ok {env : BuildEnv} {dir : String} {commit : Option String}
    (h1 : env.dirExists = true) (h2 : env.checkoutOk = true)
    (h3 : env.installShExists = true) :
    build_rccl env dir commit =
      .ok (pathJoin (pathJoin (pathJoin dir "build") "debug") "librccl.so.1.0",
        if env.buildExitOk then none else some env.buildOutput) := by
  unfold build_rccl
  rw [h1, h2, h3]
  cases env.buildExitOk <;> simp

theorem build_rccl_missing_install {env : BuildEnv} {dir : String}
    {commit : Option String} (h1 : env.dirExists = true)
    (h2 : env.checkoutOk = true) (h3 : env.installShExists = false) :
    build_rccl env dir commit = .error .fileNotFoundError := by
  unfold build_rccl
  rw [h1, h2, h3]
  simp

theorem run_rccl_test_ok {env : RunEnv} (h1 : env.pathVarSet = true)
    (h2 : env.binExists = true) : run_rccl_test env = .ok env.output := by
  unfold run_rccl_test
  rw [h1, h2]
  cases env.exitOk <;> simp

theorem revStep_ok {scratch : String} {env : RevEnv} {c : String}
    {d : List Entry}
    (hb1 : env.benv.dirExists = true) (hb2 : env.benv.checkoutOk = true)
    (hb3 : env.benv.installShExists = true)
    (hr1 : env.renv.pathVarSet = true) (hr2 : env.renv.binExists = true)
    (hp : parse_rccl_tests_output env.renv.output = .ok d) :
    revStep scratch env c = .ok (d, env.renv.output) := by
  unfold revStep
  simp only [build_rccl_ok hb1 hb2 hb3, run_rccl_test_ok hr1 hr2, hp]

theorem splitlinesAux_cons_ne {c : Char} (cs acc : List Char)
    (hc : ¬(c = '\n')) :
    pySplitlinesAux (c :: cs) acc = pySplitlinesAux cs (c :: acc) := by
  rw [pySplitlinesAux]
  rw [if_neg hc]

theorem splitlinesAux_noNl :
    ∀ (x acc : List Char), (∀ c ∈ x, c ≠ '\n') → ¬(acc = [] ∧ x = []) →
      pySplitlinesAux x acc = [acc.reverse ++ x] := by
  intro x
  induction x with
  | nil =>
    intro acc _ hne
    have hacc : acc ≠ [] := by
      intro hc
      exact hne ⟨hc, rfl⟩
    simp [pySplitlinesAux, List.isEmpty_iff, hacc]
  | cons c cs ih =>
    intro acc hnl _
    have hc : ¬(c = '\n') := hnl c (by simp)
    rw [splitlinesAux_cons_ne cs acc hc]
    rw [ih (c :: acc) (fun d hd => hnl d (by simp [hd])) (by simp)]
    simp

theorem splitlinesAux_break :
    ∀ (x : List Char) (acc rest : List Char), (∀ c ∈ x, c ≠ '\n') →
      pySplitlinesAux (x ++ '\n' :: rest) acc =
        (acc.reverse ++ x) :: pySplitlinesAux rest [] := by
  intro x
  induction x with
  | nil =>
    intro acc rest _
    simp [pySplitlinesAux]
  | cons c cs ih =>
    intro acc rest hnl
    have hc : ¬(c = '\n') := hnl c (by simp)
    show pySplitlinesAux (c :: (cs ++ '\n' :: rest)) acc = _
    rw [splitlinesAux_cons_ne (cs ++ '\n' :: rest) acc hc]
    rw [ih (c :: acc) rest (fun d hd => hnl d (by simp [hd]))]
    simp

theorem nonws_no_nl {x : List Char} (h : ∀ c ∈ x, isWsC c = false) :
    ∀ c ∈ x, c ≠ '\n' := by
  intro c hc he
  subst he
  have := h '\n' hc
  exact absurd this (by decide)

theorem joinLines_splitlines :
    ∀ ls : List (List Char),
      (∀ x ∈ ls, x ≠ [] ∧ ∀ c ∈ x, isWsC c = false) →
      pySplitlines (joinLines ls) = ls := by
  intro ls
  induction ls with
  | nil => intro _; rfl
  | cons x xs ih =>
    intro hwf
    obtain ⟨hx, hxw⟩ := hwf x (by simp)
    cases xs with
    | nil =>
      show pySplitlinesAux x [] = [x]
      rw [splitlinesAux_noNl x [] (nonws_no_nl hxw)
        (by simp [List.isEmpty_iff, hx])]
      simp
    | cons y ys =>
      show pySplitlinesAux (x ++ '\n' :: joinLines (y :: ys)) [] = x :: y :: ys
      rw [splitlinesAux_break x [] (joinLines (y :: ys)) (nonws_no_nl hxw)]
      simp only [List.reverse_nil, List.nil_append]
      rw [show pySplitlinesAux (joinLines (y :: ys)) [] =
        pySplitlines (joinLines (y :: ys)) from rfl]
      rw [ih (fun z hz => hwf z (by simp [hz]))]

theorem joinLines_rev_head :
    ∀ ls : List (List Char), ls ≠ [] → (∀ x ∈ ls, x ≠ []) →
      ∃ c r, (joinLines ls).reverse = c :: r ∧ ∃ x ∈ ls, c ∈ x := by
  intro ls
  induction ls with
  | nil => intro h _; exact absurd rfl h
  | cons x xs ih =>
    intro _ hne
    cases xs with
    | nil =>
      have hx : x ≠ [] := hne x (by simp)
      obtain ⟨c, r, hr⟩ : ∃ c r, x.reverse = c :: r := by
        cases hxr : x.reverse with
        | nil => exact absurd (by simpa using hxr) hx
        | cons c r => exact ⟨c, r, rfl⟩
      refine ⟨c, r, by simpa [joinLines] using hr, x, by simp, ?_⟩
      have : c ∈ x.reverse := by simp [hr]
      simpa using this
    | cons y ys =>
      obtain ⟨c, r, hcr, z, hz, hcz⟩ := ih (by simp)
        (fun w hw => hne w (by simp [hw]))
      refine ⟨c, r ++ '\n' :: x.reverse, ?_, z, by simp [hz], hcz⟩
      show (x ++ '\n' :: joinLines (y :: ys)).reverse = _
      rw [List.reverse_append, List.reverse_cons, hcr]
      simp

theorem pyStrip_id {l : List Char}
    (h1 : l = [] ∨ ∃ c r, l = c :: r ∧ isWsC c = false)
    (h2 : l = [] ∨ ∃ c r, l.reverse = c :: r ∧ isWsC c = false) :
    pyStrip l = l := by
  unfold pyStrip
  have hd1 : l.dropWhile isWsC = l := by
    rcases h1 with rfl | ⟨c, r, rfl, hc⟩
    · rfl
    · rw [List.dropWhile_cons, if_neg (by simp [hc])]
  rw [hd1]
  have hd2 : l.reverse.dropWhile isWsC = l.reverse := by
    rcases h2 with rfl | ⟨c, r, hrev, hc⟩
    · rfl
    · rw [hrev, List.dropWhile_cons, if_neg (by simp [hc])]
  rw [hd2, List.reverse_reverse]

theorem git_roundtrip {ls : List (List Char)}
    (hwf : ∀ x ∈ ls, x ≠ [] ∧ ∀ c ∈ x, isWsC c = false) :
    pySplitlines (pyStrip (joinLines ls)) = ls := by
  cases ls with
  | nil => rfl
  | cons x xs =>
    have hstrip : pyStrip (joinLines (x :: xs)) = joinLines (x :: xs) := by
      apply pyStrip_id
      · right
        obtain ⟨hx, hxw⟩ := hwf x (by simp)
        obtain ⟨c, cs, rfl⟩ : ∃ c cs, x = c :: cs := by
          cases x with
          | nil => exact absurd rfl hx
          | cons c cs => exact ⟨c, cs, rfl⟩
        have hc : isWsC c = false := hxw c (by simp)
        cases xs with
        | nil => exact ⟨c, cs, rfl, hc⟩
        | cons y ys =>
          exact ⟨c, cs ++ '\n' :: joinLines (y :: ys), by simp [joinLines], hc⟩
      · right
        obtain ⟨c, r, hcr, z, hz, hcz⟩ := joinLines_rev_head (x :: xs)
          (by simp) (fun w hw => (hwf w hw).1)
        exact ⟨c, r, hcr, (hwf z hz).2 c hcz⟩
    rw [hstrip]
    exact joinLines_splitlines (x :: xs) hwf

theorem get_last_n_ok {env : RepoEnv} {n : Nat}
    (h1 : env.isDir = true) (h2 : env.gitLogOk = true)
    (hw : ∀ h ∈ env.history, h.data ≠ [] ∧ ∀ c ∈ h.data, isWsC c = false) :
    get_last_n_commit_hashes env n = .ok ((env.history.take n).reverse) := by
  unfold get_last_n_commit_hashes
  rw [h1, h2]
  simp only [Bool.not_true, Bool.false_eq_true, if_false]
  unfold gitLogStdout
  rw [git_roundtrip (by
    intro x hx
    obtain ⟨hstr, hmem, rfl⟩ := List.mem_map.mp hx
    exact hw hstr (List.take_subset n env.history
      (List.mem_reverse.mp hmem)))]
  rw [List.map_map]
  have hid : ((fun t => String.mk t) ∘ String.data) = id := by
    funext s
    rfl
  rw [hid, List.map_id]

/-- C5: a line that starts with the comment marker `##`, or that matches
neither Layout A (`pattern1`) nor Layout B (`pattern2`), or that has fewer
than 12 whitespace-separated tokens, contributes no MetricSample: the
loop iteration leaves the parser state unchanged and raises nothing. -/
theorem c5_nonmatching_skipped (st : Option Entry × List Entry)
    (line : String)
    (h : startsHashHash line = true ∨
      (pattern1Match line = false ∧ pattern2Match line = false) ∨
      (pySplitStr line).length < 12) :
    lineStep st line = .ok st :=
  lineStep_skip h

/-- Witness for C5 at the specification's own scenario: a line starting
with `## notes` is dropped. -/
theorem c5_witness :
    lineStep (none, ([] : List Entry)) "## notes" = .ok (none, []) :=
  c5_nonmatching_skipped (none, []) "## notes" (Or.inl rfl)

/-- C6 counterexample: `parse_rccl_tests_output` can raise.  On a
well-formed Layout B line whose size token exceeds the signed 64-bit
range, the `np.int64` conversion overflows and the error propagates out
of parse, so parse does not return a result for this text. -/
theorem c6_counterexample :
    parse_rccl_tests_output c6bigline = .error .overflowError := by rfl

/-- C6 amended: parse never raises because of a line that fails the
pattern gate — every non-conforming line is dropped — but an accepted
line's numeric conversions can still raise: `np.int64` raises
`OverflowError` when an integer column exceeds the signed 64-bit range,
and raises `ValueError` when an error-count token passes the Unicode
`str.isdigit` guard without being a decimal integer (e.g. `5²`, whose
digit prefix satisfies the unanchored final regex group).
`OverflowError` and `ValueError` are the only errors parse can
propagate, and both are reachable. -/
theorem c6_parse_errors (s : String) :
    ((∃ l, parse_rccl_tests_output s = .ok l) ∨
      parse_rccl_tests_output s = .error .overflowError ∨
      parse_rccl_tests_output s = .error .valueError) ∧
    parse_rccl_tests_output c6supline = .error .valueError := by
  constructor
  · cases hp : parse_rccl_tests_output s with
    | ok l => exact Or.inl ⟨l, rfl⟩
    | error e =>
      rcases parse_err hp with he | he
      · exact Or.inr (Or.inl (by rw [he]))
      · exact Or.inr (Or.inr (by rw [he]))
  · rfl

/-- C7: when the benchmark binary can be spawned, `run_rccl_test` returns
the captured combined stdout+stderr text even when the process exits
non-zero — the `except subprocess.CalledProcessError` handler returns
`str(e.output)` instead of raising. -/
theorem c7_runner_returns_output (env : RunEnv)
    (h1 : env.pathVarSet = true) (h2 : env.binExists = true)
    (h3 : env.exitOk = false) :
    run_rccl_test env = .ok env.output :=
  run_rccl_test_ok h1 h2

/-- Witness for C7: a failing benchmark process still yields its partial
output. -/
theorem c7_witness :
    run_rccl_test failRunEnv = .ok "partial benchmark output" :=
  c7_runner_returns_output failRunEnv rfl rfl rfl

/-- C10: whenever the RCCL directory and `install.sh` exist (and the
checkout succeeds), `build_rccl` returns the constant artifact path
`<rccl_dir>/build/debug/librccl.so.1.0` — the same returned path whether
the build subprocess succeeded or exited non-zero, so the caller cannot
distinguish the two outcomes from the returned value. -/
theorem c10_constant_artifact_path (env : BuildEnv) (dir : String)
    (commit : Option String) (h1 : env.dirExists = true)
    (h2 : env.checkoutOk = true) (h3 : env.installShExists = true) :
    (build_rccl env dir commit).map Prod.fst =
      .ok (pathJoin (pathJoin (pathJoin dir "build") "debug")
        "librccl.so.1.0") ∧
    (build_rccl { env with buildExitOk := true } dir commit).map Prod.fst =
      (build_rccl { env with buildExitOk := false } dir commit).map
        Prod.fst := by
  constructor
  · rw [build_rccl_ok h1 h2 h3]
    cases env.buildExitOk <;> rfl
  · rw [@build_rccl_ok { env with buildExitOk := true } dir commit h1 h2 h3,
      @build_rccl_ok { env with buildExitOk := false } dir commit h1 h2 h3]
    rfl

/-- Witness for C10: the failed and successful builds return the same
artifact path. -/
theorem c10_witness :
    (build_rccl failBuildEnv "/r" (some "c0ffee")).map Prod.fst =
      .ok "/r/build/debug/librccl.so.1.0" ∧
    (build_rccl { failBuildEnv with buildExitOk := true } "/r"
        (some "c0ffee")).map Prod.fst =
      (build_rccl { failBuildEnv with buildExitOk := false } "/r"
        (some "c0ffee")).map Prod.fst := by
  have h := c10_constant_artifact_path failBuildEnv "/r" (some "c0ffee")
    rfl rfl rfl
  exact ⟨h.1, h.2⟩

/-- C1 counterexample: a line whose out-of-place error-count token is the
literal `N/A` does NOT yield a MetricSample — such a line matches neither
layout (both patterns require the out-of-place error-count column to be
`(-?\d+)`; only the final, in-place column admits `N/A`), so parse skips
it and produces the empty sample list. -/
theorem c1_counterexample :
    (pySplitStr c1NAline)[8]? = some "N/A" ∧
      parse_rccl_tests_output c1NAline = .ok [] := by
  constructor
  · rfl
  · rfl

/-- C1 amended: for every line that parse accepts and turns into a
MetricSample, the out-of-place error-count token is necessarily an
optionally-minus-signed digit string (never `N/A`) and `op_wrong` equals
its parsed integer, while the in-place error-count field equals the
parsed integer when its token is an optionally-signed digit string and 0
for any other token value, including the literal `N/A`. -/
theorem c1_error_count_fields {st st' : Option Entry × List Entry}
    {line : String} (h : lineStep st line = .ok st') (hne : st'.2 ≠ st.2) :
    ∃ e t7 t11,
      st' = (some e, st.2 ++ [e]) ∧
      (pySplitStr line)[7 + (if pattern1Match line then 1 else 0)]? =
        some t7 ∧
      pySignedDigitsS t7 = true ∧ npInt64 t7 = .ok e.op_wrong ∧
      (pySplitStr line)[11 + (if pattern1Match line then 1 else 0)]? =
        some t11 ∧
      (if pySignedDigitsS t11 = true then npInt64 t11 = .ok e.ip_wrong
        else e.ip_wrong = 0) := by
  obtain ⟨hsh, hm, e, hmk, hst'⟩ := lineStep_produce h hne
  by_cases h1 : pattern1Match line = true
  · have hi : (if pattern1Match line then 1 else 0) = 1 := if_pos h1
    rw [hi] at hmk ⊢
    obtain ⟨⟨u0, hu0, hs0⟩, ⟨u1, hu1, hs1⟩, ⟨u2, hu2⟩, ⟨u3, hu3⟩,
      ⟨u4, hu4, hs4⟩, ⟨u5, hu5, hf5⟩, ⟨u6, hu6, hf6⟩, ⟨u7, hu7, hf7⟩,
      ⟨u8, hu8, hs8⟩, ⟨u9, hu9, hf9⟩, ⟨u10, hu10, hf10⟩, ⟨u11, hu11, hf11⟩,
      ⟨u12, hu12⟩, hlen⟩ := pattern1_facts h1
    rw [mkEntry_eq1 hu0 hu1 hu2 hu3 hu4 hu5 hu6 hu7 hu8 hu9 hu10 hu11
      hu12] at hmk
    obtain ⟨_, _, _, _, _, _, _, _, how, _, _, _, hiw⟩ := entryOf_ok hmk
    refine ⟨e, u8, u12, hst', hu8, hs8, ?_, hu12, ?_⟩
    · rw [wrongVal_sd hs8] at how
      exact how
    · by_cases hs12 : pySignedDigitsS u12 = true
      · rw [if_pos hs12]
        rw [wrongVal_sd hs12] at hiw
        exact hiw
      · rw [if_neg hs12]
        exact wrongVal_ok_not_sd hiw (bool_false_of_not_true hs12)
  · have h2 : pattern2Match line = true := by
      rw [bool_false_of_not_true h1] at hm
      simpa using hm
    have hi : (if pattern1Match line then 1 else 0) = 0 := if_neg h1
    rw [hi] at hmk ⊢
    obtain ⟨⟨u0, hu0, hs0⟩, ⟨u1, hu1, hs1⟩, ⟨u2, hu2⟩, ⟨u3, hu3, hs3⟩,
      ⟨u4, hu4, hf4⟩, ⟨u5, hu5, hf5⟩, ⟨u6, hu6, hf6⟩, ⟨u7, hu7, hs7⟩,
      ⟨u8, hu8, hf8⟩, ⟨u9, hu9, hf9⟩, ⟨u10, hu10, hf10⟩, ⟨u11, hu11⟩,
      hlen⟩ := pattern2_facts h2
    rw [mkEntry_eq0 hu0 hu1 hu2 hu3 hu4 hu5 hu6 hu7 hu8 hu9 hu10 hu11]
      at hmk
    obtain ⟨_, _, _, _, _, _, _, _, how, _, _, _, hiw⟩ := entryOf_ok hmk
    refine ⟨e, u7, u11, hst', hu7, hs7, ?_, hu11, ?_⟩
    · rw [wrongVal_sd hs7] at how
      exact how
    · by_cases hs11 : pySignedDigitsS u11 = true
      · rw [if_pos hs11]
        rw [wrongVal_sd hs11] at hiw
        exact hiw
      · rw [if_neg hs11]
        exact wrongVal_ok_not_sd hiw (bool_false_of_not_true hs11)

/-- Witness for the amended C1 at the specification's Layout A scenario
line, whose in-place error-count token is `N/A`. -/
theorem c1_witness :
    ∃ e t7 t11,
      ((some c4entry, [c4entry]) : Option Entry × List Entry) =
        (some e, ([] : List Entry) ++ [e]) ∧
      (pySplitStr c4line)[7 + (if pattern1Match c4line then 1 else 0)]? =
        some t7 ∧
      pySignedDigitsS t7 = true ∧ npInt64 t7 = .ok e.op_wrong ∧
      (pySplitStr c4line)[11 + (if pattern1Match c4line then 1 else 0)]? =
        some t11 ∧
      (if pySignedDigitsS t11 = true then npInt64 t11 = .ok e.ip_wrong
        else e.ip_wrong = 0) :=
  @c1_error_count_fields (none, []) (some c4entry, [c4entry]) c4line
    (by rfl) (by decide)

/-- C4: under Layout A (`pattern1`), parse extracts `redop` from the 4th
whitespace-separated token (`columns[3]`) and reads every subsequent
field one position later than under Layout B — root from `columns[4]`,
the out-of-place time/algbw/busbw/error-count from `columns[5..8]` and
the in-place group from `columns[9..12]`, versus `columns[3..11]` and the
constant `"none"` under Layout B; and the specification's concrete
13-token scenario line parses to exactly the expected record. -/
theorem c4_layoutA_shift :
    (∀ (st st' : Option Entry × List Entry) (line : String) (e : Entry),
      lineStep st line = .ok st' → st' = (some e, st.2 ++ [e]) →
      pattern1Match line = true →
      ((pySplitStr line)[3]? = some e.redop ∧
       (∃ t, (pySplitStr line)[4]? = some t ∧ npInt64 t = .ok e.root) ∧
       (∃ t, (pySplitStr line)[5]? = some t ∧ pyFloat t = .ok e.op_time) ∧
       (∃ t, (pySplitStr line)[6]? = some t ∧ pyFloat t = .ok e.op_algbw) ∧
       (∃ t, (pySplitStr line)[7]? = some t ∧ pyFloat t = .ok e.op_busbw) ∧
       (∃ t, (pySplitStr line)[8]? = some t ∧ wrongVal t = .ok e.op_wrong) ∧
       (∃ t, (pySplitStr line)[9]? = some t ∧ pyFloat t = .ok e.ip_time) ∧
       (∃ t, (pySplitStr line)[10]? = some t ∧ pyFloat t = .ok e.ip_algbw) ∧
       (∃ t, (pySplitStr line)[11]? = some t ∧ pyFloat t = .ok e.ip_busbw) ∧
       (∃ t, (pySplitStr line)[12]? = some t ∧
         wrongVal t = .ok e.ip_wrong)) ) ∧
    (∀ (st st' : Option Entry × List Entry) (line : String) (e : Entry),
      lineStep st line = .ok st' → st' = (some e, st.2 ++ [e]) →
      pattern1Match line = false → pattern2Match line = true →
      (e.redop = "none" ∧
       (∃ t, (pySplitStr line)[3]? = some t ∧ npInt64 t = .ok e.root) ∧
       (∃ t, (pySplitStr line)[4]? = some t ∧ pyFloat t = .ok e.op_time) ∧
       (∃ t, (pySplitStr line)[7]? = some t ∧
         wrongVal t = .ok e.op_wrong) ∧
       (∃ t, (pySplitStr line)[11]? = some t ∧
         wrongVal t = .ok e.ip_wrong)) ) ∧
    parse_rccl_tests_output c4line = .ok [c4entry] := by
  refine ⟨?_, ?_, by rfl⟩
  · intro st st' line e h hst' h1
    have hne : st'.2 ≠ st.2 := by
      rw [hst']
      intro hc
      have := congrArg List.length hc
      simp at this
    obtain ⟨hsh, hm, e', hmk, hst''⟩ := lineStep_produce h hne
    have hee : e' = e := by
      rw [hst'] at hst''
      have := congrArg Prod.fst hst''
      simpa using this.symm
    subst hee
    rw [if_pos h1] at hmk
    obtain ⟨⟨u0, hu0, hs0⟩, ⟨u1, hu1, hs1⟩, ⟨u2, hu2⟩, ⟨u3, hu3⟩,
      ⟨u4, hu4, hs4⟩, ⟨u5, hu5, hf5⟩, ⟨u6, hu6, hf6⟩, ⟨u7, hu7, hf7⟩,
      ⟨u8, hu8, hs8⟩, ⟨u9, hu9, hf9⟩, ⟨u10, hu10, hf10⟩, ⟨u11, hu11, hf11⟩,
      ⟨u12, hu12⟩, hlen⟩ := pattern1_facts h1
    rw [mkEntry_eq1 hu0 hu1 hu2 hu3 hu4 hu5 hu6 hu7 hu8 hu9 hu10 hu11
      hu12] at hmk
    obtain ⟨hsz, hel, hty, hro, hrt, ht4, ht5, ht6, hw7, ht8, ht9, ht10,
      hw11⟩ := entryOf_ok hmk
    exact ⟨hro ▸ hu3, ⟨u4, hu4, hrt⟩, ⟨u5, hu5, ht4⟩, ⟨u6, hu6, ht5⟩,
      ⟨u7, hu7, ht6⟩, ⟨u8, hu8, hw7⟩, ⟨u9, hu9, ht8⟩, ⟨u10, hu10, ht9⟩,
      ⟨u11, hu11, ht10⟩, ⟨u12, hu12, hw11⟩⟩
  · intro st st' line e h hst' h1 h2
    have hne : st'.2 ≠ st.2 := by
      rw [hst']
      intro hc
      have := congrArg List.length hc
      simp at this
    obtain ⟨hsh, hm, e', hmk, hst''⟩ := lineStep_produce h hne
    have hee : e' = e := by
      rw [hst'] at hst''
      have := congrArg Prod.fst hst''
      simpa using this.symm
    subst hee
    rw [if_neg (by simp [h1])] at hmk
    obtain ⟨⟨u0, hu0, hs0⟩, ⟨u1, hu1, hs1⟩, ⟨u2, hu2⟩, ⟨u3, hu3, hs3⟩,
      ⟨u4, hu4, hf4⟩, ⟨u5, hu5, hf5⟩, ⟨u6, hu6, hf6⟩, ⟨u7, hu7, hs7⟩,
      ⟨u8, hu8, hf8⟩, ⟨u9, hu9, hf9⟩, ⟨u10, hu10, hf10⟩, ⟨u11, hu11⟩,
      hlen⟩ := pattern2_facts h2
    rw [mkEntry_eq0 hu0 hu1 hu2 hu3 hu4 hu5 hu6 hu7 hu8 hu9 hu10 hu11]
      at hmk
    obtain ⟨hsz, hel, hty, hro, hrt, ht4, ht5, ht6, hw7, ht8, ht9, ht10,
      hw11⟩ := entryOf_ok hmk
    exact ⟨hro, ⟨u3, hu3, hrt⟩, ⟨u4, hu4, ht4⟩, ⟨u7, hu7, hw7⟩,
      ⟨u11, hu11, hw11⟩⟩

/-- Witness for C4 at the specification's scenario line. -/
theorem c4_witness :
    (pySplitStr c4line)[3]? = some c4entry.redop ∧
      (∃ t, (pySplitStr c4line)[4]? = some t ∧
        npInt64 t = .ok c4entry.root) ∧
      (∃ t, (pySplitStr c4line)[5]? = some t ∧
        pyFloat t = .ok c4entry.op_time) ∧
      (∃ t, (pySplitStr c4line)[6]? = some t ∧
        pyFloat t = .ok c4entry.op_algbw) ∧
      (∃ t, (pySplitStr c4line)[7]? = some t ∧
        pyFloat t = .ok c4entry.op_busbw) ∧
      (∃ t, (pySplitStr c4line)[8]? = some t ∧
        wrongVal t = .ok c4entry.op_wrong) ∧
      (∃ t, (pySplitStr c4line)[9]? = some t ∧
        pyFloat t = .ok c4entry.ip_time) ∧
      (∃ t, (pySplitStr c4line)[10]? = some t ∧
        pyFloat t = .ok c4entry.ip_algbw) ∧
      (∃ t, (pySplitStr c4line)[11]? = some t ∧
        pyFloat t = .ok c4entry.ip_busbw) ∧
      (∃ t, (pySplitStr c4line)[12]? = some t ∧
        wrongVal t = .ok c4entry.ip_wrong) :=
  c4_layoutA_shift.1 (none, []) (some c4entry, [c4entry]) c4line c4entry
    (by rfl) (by rfl) (by rfl)

/-- C2 counterexample: sweeping 5 revisions performs THREE persist calls
to `results.json`, not two — revision index 4 satisfies `4 % 4 == 0` and
checkpoints inside the loop, and the unconditional flush after the loop
writes once more. -/
theorem c2_counterexample :
    (runSweep "/s" (fun _ => happyRevEnv)
      ["c0", "c1", "c2", "c3", "c4"]).map (fun tr => tr.persists.length) =
      .ok 3 := by rfl

/-- C2 amended: a sweep over 5 revisions (whenever it completes) performs
exactly three persist calls: after index 0 (`0 % 4 == 0`), after index 4
inside the loop (`4 % 4 == 0`), and the final unconditional flush — the
last two snapshots being identical, full copies of all five records;
revisions 1-3 accumulate in memory with no snapshot in between (the first
snapshot holds only the first record and all later snapshots hold all
five). -/
theorem c2_three_persists {scratch : String} {envs : Nat → RevEnv}
    {c0 c1 c2 c3 c4 : String} {tr : SweepTrace}
    (h : runSweep scratch envs [c0, c1, c2, c3, c4] = .ok tr) :
    tr.persists.length = 3 ∧ tr.final.length = 5 ∧
      tr.persists = [tr.final.take 1, tr.final, tr.final] := by
  unfold runSweep at h
  simp only [sweepAux] at h
  cases hs0 : revStep scratch (envs 0) c0 with
  | error e => simp [hs0] at h
  | ok p0 =>
  obtain ⟨d0, o0⟩ := p0
  simp only [hs0] at h
  cases hs1 : revStep scratch (envs 1) c1 with
  | error e => simp [hs1] at h
  | ok p1 =>
  obtain ⟨d1, o1⟩ := p1
  simp only [hs1] at h
  cases hs2 : revStep scratch (envs 2) c2 with
  | error e => simp [hs2] at h
  | ok p2 =>
  obtain ⟨d2, o2⟩ := p2
  simp only [hs2] at h
  cases hs3 : revStep scratch (envs 3) c3 with
  | error e => simp [hs3] at h
  | ok p3 =>
  obtain ⟨d3, o3⟩ := p3
  simp only [hs3] at h
  cases hs4 : revStep scratch (envs 4) c4 with
  | error e => simp [hs4] at h
  | ok p4 =>
  obtain ⟨d4, o4⟩ := p4
  simp only [hs4] at h
  injection h with h1
  subst h1
  norm_num

/-- Witness for the amended C2 on a concrete all-successful sweep. -/
theorem c2_witness :
    ∃ tr, runSweep "/s" (fun _ => happyRevEnv)
        ["c0", "c1", "c2", "c3", "c4"] = .ok tr ∧
      tr.persists.length = 3 ∧ tr.final.length = 5 ∧
      tr.persists = [tr.final.take 1, tr.final, tr.final] := by
  cases htr : runSweep "/s" (fun _ => happyRevEnv)
      ["c0", "c1", "c2", "c3", "c4"] with
  | error e =>
    have hmap : (runSweep "/s" (fun _ => happyRevEnv)
        ["c0", "c1", "c2", "c3", "c4"]).map
        (fun tr => tr.persists.length) = .ok 3 := by rfl
    rw [htr] at hmap
    exact absurd hmap (by simp [Except.map])
  | ok tr => exact ⟨tr, rfl, c2_three_persists htr⟩

/-- C3: `build_rccl` raises `FileNotFoundError` (the spec's
`BuildConfigurationError`) when `install.sh` is absent; when the build
command exits non-zero the raised `CalledProcessError` (the spec's
`BuildFailure`) is caught inside `build_rccl`, which reports the captured
build output and returns normally — so the failure is non-fatal and the
per-revision step still invokes the benchmark runner and feeds its
output to the parser. -/
theorem c3_build_failure_handling :
    (∀ (env : BuildEnv) (dir : String) (commit : Option String),
      env.dirExists = true → env.checkoutOk = true →
      env.installShExists = false →
      build_rccl env dir commit = .error .fileNotFoundError) ∧
    (∀ (env : BuildEnv) (dir : String) (commit : Option String),
      env.dirExists = true → env.checkoutOk = true →
      env.installShExists = true → env.buildExitOk = false →
      build_rccl env dir commit =
        .ok (pathJoin (pathJoin (pathJoin dir "build") "debug")
          "librccl.so.1.0", some env.buildOutput)) ∧
    (∀ (scratch : String) (env : RevEnv) (c : String) (d : List Entry),
      env.benv.dirExists = true → env.benv.checkoutOk = true →
      env.benv.installShExists = true → env.benv.buildExitOk = false →
      env.renv.pathVarSet = true → env.renv.binExists = true →
      parse_rccl_tests_output env.renv.output = .ok d →
      revStep scratch env c = .ok (d, env.renv.output)) := by
  refine ⟨?_, ?_, ?_⟩
  · intro env dir commit h1 h2 h3
    exact build_rccl_missing_install h1 h2 h3
  · intro env dir commit h1 h2 h3 h4
    rw [build_rccl_ok h1 h2 h3, h4]
    rfl
  · intro scratch env c d h1 h2 h3 _ h5 h6 h7
    exact revStep_ok h1 h2 h3 h5 h6 h7

/-- Witness for C3: a missing `install.sh`, a failing build that still
returns the captured output, and a failing-build revision whose
benchmark still runs. -/
theorem c3_witness :
    build_rccl noInstallEnv "/r" (some "c0ffee") =
      .error .fileNotFoundError ∧
    build_rccl failBuildEnv "/r" (some "c0ffee") =
      .ok ("/r/build/debug/librccl.so.1.0", some "make error output") ∧
    revStep "/s" c3RevEnv "c0ffee" = .ok ([], "") :=
  ⟨c3_build_failure_handling.1 noInstallEnv "/r" (some "c0ffee") rfl rfl
      rfl,
    c3_build_failure_handling.2.1 failBuildEnv "/r" (some "c0ffee") rfl rfl
      rfl rfl,
    c3_build_failure_handling.2.2 "/s" c3RevEnv "c0ffee" [] rfl rfl rfl rfl
      rfl rfl (by rfl)⟩

/-- C8 counterexample: `RepositoryAccessError` (`ValueError`) is NOT
raised exactly when the path is not a valid repository checkout — a path
that is a directory but not a repository checkout makes the `git log`
subprocess fail instead, so the function raises `RuntimeError`
(`VersionControlError`), not `ValueError`. -/
theorem c8_counterexample :
    nonRepoDirEnv.isRepoCheckout = false ∧
      get_last_n_commit_hashes nonRepoDirEnv 5 = .error .runtimeError ∧
      get_last_n_commit_hashes nonRepoDirEnv 5 ≠ .error .valueError := by
  refine ⟨rfl, rfl, ?_⟩
  intro hc
  rw [show get_last_n_commit_hashes nonRepoDirEnv 5 =
    .error .runtimeError from rfl] at hc
  injection hc with h2
  cases h2

/-- C8 amended: `get_last_n_commit_hashes` returns the oldest-first
sequence of at most `count` revision identifiers (the newest `count`
commits of the `develop` history, printed in reverse); it raises
`ValueError` exactly when the path is not a directory, and `RuntimeError`
exactly when the `git log` command exits non-zero — in particular
whenever the path is a directory that is not a valid repository checkout,
since `git log` fails there. -/
theorem c8_enumerator_contract :
    (∀ (env : RepoEnv) (n : Nat), env.isDir = false →
      get_last_n_commit_hashes env n = .error .valueError) ∧
    (∀ (env : RepoEnv) (n : Nat), env.isDir = true →
      env.gitLogOk = false →
      get_last_n_commit_hashes env n = .error .runtimeError) ∧
    (∀ (env : RepoEnv) (n : Nat), env.isDir = true →
      env.isRepoCheckout = false →
      (env.gitLogOk = true → env.isRepoCheckout = true) →
      get_last_n_commit_hashes env n = .error .runtimeError) ∧
    (∀ (env : RepoEnv) (n : Nat), env.isDir = true →
      env.gitLogOk = true →
      (∀ h ∈ env.history, h.data ≠ [] ∧ ∀ c ∈ h.data, isWsC c = false) →
      get_last_n_commit_hashes env n = .ok ((env.history.take n).reverse) ∧
        ((env.history.take n).reverse).length ≤ n) := by
  refine ⟨?_, ?_, ?_, ?_⟩
  · intro env n h1
    unfold get_last_n_commit_hashes
    rw [h1]
    rfl
  · intro env n h1 h2
    unfold get_last_n_commit_hashes
    rw [h1, h2]
    rfl
  · intro env n h1 h2 h3
    have hg : env.gitLogOk = false := by
      cases hgo : env.gitLogOk
      · rfl
      · rw [h3 hgo] at h2
        exact absurd h2 (by simp)
    unfold get_last_n_commit_hashes
    rw [h1, hg]
    rfl
  · intro env n h1 h2 hw
    refine ⟨get_last_n_ok h1 h2 hw, ?_⟩
    rw [List.length_reverse, List.length_take]
    exact min_le_left n _

/-- Witness for the amended C8: a two-commit repository enumerated
oldest-first, and a non-directory path rejected with `ValueError`. -/
theorem c8_witness :
    get_last_n_commit_hashes goodRepoEnv 2 = .ok ["def5678", "abc1234"] ∧
      ((goodRepoEnv.history.take 2).reverse).length ≤ 2 ∧
      get_last_n_commit_hashes noDirEnv 2 = .error .valueError := by
  have h := c8_enumerator_contract.2.2.2 goodRepoEnv 2 rfl rfl (by decide)
  exact ⟨h.1, h.2, c8_enumerator_contract.1 noDirEnv 2 rfl⟩

/-- Inversion: a successful `run_rccl_test` always returns the captured
combined output. -/
theorem run_rccl_test_ok_inv {env : RunEnv} {o : String}
    (h : run_rccl_test env = .ok o) : o = env.output := by
  unfold run_rccl_test at h
  cases hp1 : env.pathVarSet
  · rw [hp1] at h
    simp at h
  · rw [hp1] at h
    cases hp2 : env.binExists
    · rw [hp2] at h
      simp at h
    · rw [hp2] at h
      cases hp3 : env.exitOk
      · rw [hp3] at h
        simp at h
        exact h.symm
      · rw [hp3] at h
        simp at h
        exact h.symm

/-- C9 counterexample: the per-revision backup log does not contain the
byte-identical raw benchmark output — `write_to_log` writes
`message + '\n'`, appending one newline. -/
theorem c9_counterexample :
    (write_to_log [] "raw output" "/p" true).lookup "/p" =
      some "raw output\n" ∧ "raw output\n" ≠ "raw output" := by
  refine ⟨rfl, ?_⟩
  decide

/-- C9 amended: the per-revision backup log is a plain-text file named
`<scratch>/backup/<revisionId>.log` whose content is the raw benchmark
output with exactly one newline appended, and writing uses truncating
`'w'` mode, so a retry overwrites: the last write wins. -/
theorem c9_backup_log :
    (∀ (fs : List (String × String)) (m p : String),
      (write_to_log fs m p true).lookup p = some (m ++ "\n")) ∧
    (∀ (fs : List (String × String)) (m1 m2 p : String),
      (write_to_log (write_to_log fs m1 p true) m2 p true).lookup p =
        some (m2 ++ "\n")) ∧
    (∀ (scratch : String) (envs : Nat → RevEnv) (c : String)
      (tr : SweepTrace), runSweep scratch envs [c] = .ok tr →
      (envs 0).logOk = true →
      tr.logs = [(pathJoin (pathJoin scratch "backup") (c ++ ".log"),
        (envs 0).renv.output ++ "\n")]) := by
  refine ⟨?_, ?_, ?_⟩
  · intro fs m p
    simp [write_to_log, setFile, List.lookup]
  · intro fs m1 m2 p
    simp [write_to_log, setFile, List.lookup]
  · intro scratch envs c tr h hlog
    unfold runSweep at h
    simp only [sweepAux] at h
    cases hs0 : revStep scratch (envs 0) c with
    | error e => simp [hs0] at h
    | ok p0 =>
    obtain ⟨d0, o0⟩ := p0
    have ho : o0 = (envs 0).renv.output := by
      unfold revStep at hs0
      cases hb : build_rccl (envs 0).benv (pathJoin scratch "rccl")
          (some c) with
      | error e => simp [hb] at hs0
      | ok bp =>
      simp only [hb] at hs0
      cases hr : run_rccl_test (envs 0).renv with
      | error e => simp [hr] at hs0
      | ok o' =>
      simp only [hr] at hs0
      cases hpar : parse_rccl_tests_output o' with
      | error e => simp [hpar] at hs0
      | ok dd =>
      simp only [hpar] at hs0
      injection hs0 with hs0'
      rw [← run_rccl_test_ok_inv hr]
      exact (congrArg Prod.snd hs0').symm
    simp only [hs0] at h
    injection h with h1
    subst h1
    simp only [write_to_log, hlog, if_true, setFile]
    rw [ho]

/-- Witness for the amended C9 on a concrete single-revision sweep. -/
theorem c9_witness :
    ∃ tr, runSweep "/s" (fun _ => happyRevEnv) ["cafe"] = .ok tr ∧
      tr.logs = [(pathJoin (pathJoin "/s" "backup") ("cafe" ++ ".log"),
        happyRevEnv.renv.output ++ "\n")] := by
  cases htr : runSweep "/s" (fun _ => happyRevEnv) ["cafe"] with
  | error e =>
    have hmap : (runSweep "/s" (fun _ => happyRevEnv) ["cafe"]).map
        (fun tr => tr.logs.length) = .ok 1 := by rfl
    rw [htr] at hmap
    exact absurd hmap (by simp [Except.map])
  | ok tr =>
    exact ⟨tr, rfl,
      c9_backup_log.2.2 "/s" (fun _ => happyRevEnv) "cafe" tr htr rfl⟩
